import Mathlib

/-!
Verification development for the TDLR license application processing pipeline
(src/application_processor.py) and its test harness (src/test_suite.py).

The Python code is shallowly embedded: Python dicts and JSON-compatible values
become the mutual inductive type Json / JsonList / JsonObj below; the standard
library function json.loads is modelled by an executable recursive-descent
parser over the integer-numeral fragment of JSON (the repository never
produces or consumes floating-point numerals); json.dumps with indent=2 and
the default ensure_ascii=True is modelled by jsonDumps; the OpenAI chat
completion boundary is an oracle of type String -> Except PyErr String; file
persistence is an explicit store threaded through the pipeline; raised Python
exceptions are Except values.
-/

/-- Exceptions that the embedded code can surface: the two reasoning-service
failure modes, statistics.StatisticsError, and the TypeError, KeyError and
AttributeError that Python raises on ill-typed dynamic operations. -/
inductive PyErr where
  | serviceUnavailable
  | serviceRejected
  | statisticsError
  | typeError
  | keyError
  | attributeError
deriving DecidableEq, Repr

/-- Decidable equality of embedded Python call results, used to evaluate the
model at concrete inputs. -/
instance {e a : Type} [DecidableEq e] [DecidableEq a] : DecidableEq (Except e a) := fun x y =>
  match x, y with
  | .ok u, .ok v =>
      if h : u = v then .isTrue (by rw [h]) else .isFalse (by simp [h])
  | .error u, .error v =>
      if h : u = v then .isTrue (by rw [h]) else .isFalse (by simp [h])
  | .ok _, .error _ => .isFalse (by simp)
  | .error _, .ok _ => .isFalse (by simp)

mutual

/-- JSON-compatible Python values (dicts, lists, strings, ints, bools, None).
Numbers are restricted to integers: every numeric literal in the repository
and in its prompts is an integer, and floating point is outside this model. -/
inductive Json where
  | null
  | bool (b : Bool)
  | num (n : Int)
  | str (s : String)
  | arr (xs : JsonList)
  | obj (kvs : JsonObj)
deriving DecidableEq, Repr

/-- A list of JSON values (elements of a Python list). -/
inductive JsonList where
  | nil
  | cons (x : Json) (xs : JsonList)
deriving DecidableEq, Repr

/-- An ordered association list of string keys to JSON values: a Python dict
together with its key insertion order. -/
inductive JsonObj where
  | nil
  | cons (k : String) (v : Json) (kvs : JsonObj)
deriving DecidableEq, Repr

end

/-- Build a JsonList from a Lean list, for readable literals. -/
def JsonList.ofList : List Json → JsonList
  | [] => .nil
  | x :: xs => .cons x (JsonList.ofList xs)

/-- Build a JsonObj from a Lean list of pairs, for readable literals. -/
def JsonObj.ofList : List (String × Json) → JsonObj
  | [] => .nil
  | (k, v) :: kvs => .cons k v (JsonObj.ofList kvs)

/-- Lookup of a key in a dict, first occurrence. On a genuine Python dict the
keys are distinct, so first and last occurrence coincide. -/
def JsonObj.lookup? : JsonObj → String → Option Json
  | .nil, _ => none
  | .cons k v kvs, key => if k = key then some v else kvs.lookup? key

/-- Number of entries of a dict. -/
def JsonObj.size : JsonObj → Nat
  | .nil => 0
  | .cons _ _ kvs => kvs.size + 1

/-- The keys of a dict in insertion order. -/
def JsonObj.keys : JsonObj → List String
  | .nil => []
  | .cons k _ kvs => k :: kvs.keys

/-- Python dict item assignment d[k] = v: replace the value in place if the
key is present, keeping its position, otherwise append the new key at the
end. This is the semantics of dict literals and of insertion during
json.loads object decoding. -/
def JsonObj.setItem : JsonObj → String → Json → JsonObj
  | .nil, key, v => .cons key v .nil
  | .cons k w kvs, key, v =>
      if k = key then .cons k v kvs else .cons k w (kvs.setItem key v)

/-- Python dict.get(key, default). -/
def JsonObj.getD (kvs : JsonObj) (key : String) (d : Json) : Json :=
  (kvs.lookup? key).getD d

/-- Python dict.get(key) with the implicit None default. -/
def JsonObj.getN (kvs : JsonObj) (key : String) : Json :=
  kvs.getD key .null

/-- Whether a JSON value is a dict. -/
def Json.isObj : Json → Bool
  | .obj _ => true
  | _ => false

section PyStringOps

/-- Index of the first occurrence of a character in a character list, if any.
Models the search behind Python str.find. -/
def pyFindAux (c : Char) : List Char → Option Nat
  | [] => none
  | x :: xs => if x = c then some 0 else (pyFindAux c xs).map (· + 1)

/-- Index of the last occurrence of a character in a character list, if any.
Models the search behind Python str.rfind. -/
def pyRfindAux (c : Char) : List Char → Option Nat
  | [] => none
  | x :: xs =>
      match pyRfindAux c xs with
      | some i => some (i + 1)
      | none => if x = c then some 0 else none

/-- Python str.find: index of the first occurrence, or -1. -/
def pyFind (cs : List Char) (c : Char) : Int :=
  match pyFindAux c cs with
  | some i => (i : Int)
  | none => -1

/-- Python str.rfind: index of the last occurrence, or -1. -/
def pyRfind (cs : List Char) (c : Char) : Int :=
  match pyRfindAux c cs with
  | some i => (i : Int)
  | none => -1

/-- Python slicing s[a:b] with the usual normalisation of negative indices
and clamping to the ends of the string. -/
def pySlice (cs : List Char) (a b : Int) : List Char :=
  let n : Int := cs.length
  let a' : Int := if a < 0 then max (a + n) 0 else min a n
  let b' : Int := if b < 0 then max (b + n) 0 else min b n
  (cs.take b'.toNat).drop a'.toNat

end PyStringOps

section Dumps

/-- Lower-case hexadecimal digit for a value below 16. -/
def hexDigit (n : Nat) : Char :=
  if n < 10 then Char.ofNat (48 + n) else Char.ofNat (97 + n - 10)

/-- Four lower-case hexadecimal digits of a value below 65536, as emitted by
the backslash-u escapes of json.dumps. -/
def hex4 (n : Nat) : List Char :=
  [hexDigit (n / 4096 % 16), hexDigit (n / 256 % 16),
   hexDigit (n / 16 % 16), hexDigit (n % 16)]

/-- Escaping of one character inside a JSON string literal, as done by
json.dumps with its default ensure_ascii=True: the two-character escapes for
quote, backslash and the five named control characters, printable ASCII kept
as is, and everything else as backslash-u escapes, using a surrogate pair for
code points above 0xFFFF. -/
def escapeChar (c : Char) : List Char :=
  if c = '"' then ['\\', '"']
  else if c = '\\' then ['\\', '\\']
  else if c = '\x08' then ['\\', 'b']
  else if c = '\x0c' then ['\\', 'f']
  else if c = '\n' then ['\\', 'n']
  else if c = '\r' then ['\\', 'r']
  else if c = '\t' then ['\\', 't']
  else if 32 ≤ c.toNat ∧ c.toNat ≤ 126 then [c]
  else if c.toNat < 65536 then '\\' :: 'u' :: hex4 c.toNat
  else
    '\\' :: 'u' :: hex4 (55296 + (c.toNat - 65536) / 1024) ++
    ('\\' :: 'u' :: hex4 (56320 + (c.toNat - 65536) % 1024))

/-- A full JSON string literal for s, including the surrounding quotes. -/
def escapeString (s : String) : List Char :=
  '"' :: (s.data.flatMap escapeChar) ++ ['"']

/-- Decimal digits of a natural number, most significant first, with a fuel
argument that keeps the recursion structural; any fuel above the value
itself is enough. -/
def natToCharsF : Nat → Nat → List Char
  | 0, _ => []
  | fuel + 1, n =>
      if n < 10 then [Char.ofNat (48 + n)]
      else natToCharsF fuel (n / 10) ++ [Char.ofNat (48 + n % 10)]

/-- Decimal digits of a natural number, most significant first. -/
def natToChars (n : Nat) : List Char :=
  natToCharsF (n + 1) n

/-- Decimal rendering of an integer, as json.dumps emits numbers. -/
def intToChars (n : Int) : List Char :=
  if n < 0 then '-' :: natToChars n.natAbs else natToChars n.toNat

/-- A newline followed by k spaces: the indentation json.dumps inserts before
an element at nesting depth k/2 when called with indent=2. -/
def nlIndent (k : Nat) : List Char :=
  '\n' :: List.replicate k ' '

mutual

/-- Text of a JSON value as produced by json.dumps(value, indent=2), at
nesting level lvl. Empty containers print without inner whitespace; nonempty
containers open, put each item on its own line indented by 2 * (lvl + 1)
spaces, separate items with a comma, and close on a fresh line indented by
2 * lvl spaces. Keys are separated from values by a colon and one space. -/
def dumpsVal (lvl : Nat) : Json → List Char
  | .num n => intToChars n
  | .str s => escapeString s
  | .bool false => ['f', 'a', 'l', 's', 'e']
  | .bool true => ['t', 'r', 'u', 'e']
  | .null => ['n', 'u', 'l', 'l']
  | .arr .nil => ['[', ']']
  | .arr (.cons x xs) =>
      '[' :: nlIndent (2 * (lvl + 1)) ++ dumpsVal (lvl + 1) x ++
      dumpsArrRest (lvl + 1) xs ++ nlIndent (2 * lvl) ++ [']']
  | .obj .nil => ['{', '}']
  | .obj (.cons k v kvs) =>
      '{' :: nlIndent (2 * (lvl + 1)) ++ escapeString k ++ ':' :: ' ' ::
      dumpsVal (lvl + 1) v ++ dumpsObjRest (lvl + 1) kvs ++
      nlIndent (2 * lvl) ++ ['}']

/-- Remaining array items after the first: a comma, a fresh indented line and
the item, repeated. -/
def dumpsArrRest (lvl : Nat) : JsonList → List Char
  | .nil => []
  | .cons x xs =>
      ',' :: nlIndent (2 * lvl) ++ dumpsVal lvl x ++ dumpsArrRest lvl xs

/-- Remaining object entries after the first. -/
def dumpsObjRest (lvl : Nat) : JsonObj → List Char
  | .nil => []
  | .cons k v kvs =>
      ',' :: nlIndent (2 * lvl) ++ escapeString k ++ ':' :: ' ' ::
      dumpsVal lvl v ++ dumpsObjRest lvl kvs

end

/-- Model of json.dumps(value, indent=2), the only form of serialization the
repository uses (stage-three prompt construction and result persistence). -/
def jsonDumps (v : Json) : String :=
  String.mk (dumpsVal 0 v)

end Dumps

section Loads

/-- The four whitespace characters the Python json scanner skips. -/
def isWsChar (c : Char) : Bool :=
  c = ' ' || c = '\t' || c = '\n' || c = '\r'

/-- Drop leading JSON whitespace. -/
def skipWs : List Char → List Char
  | [] => []
  | c :: cs => if isWsChar c then skipWs cs else c :: cs

/-- Value of one hexadecimal digit, either case, if it is one. -/
def hexVal (c : Char) : Option Nat :=
  if 48 ≤ c.toNat ∧ c.toNat ≤ 57 then some (c.toNat - 48)
  else if 97 ≤ c.toNat ∧ c.toNat ≤ 102 then some (c.toNat - 97 + 10)
  else if 65 ≤ c.toNat ∧ c.toNat ≤ 70 then some (c.toNat - 65 + 10)
  else none

/-- Value of four hexadecimal digits. -/
def hexVal4 (a b c d : Char) : Option Nat := do
  let x ← hexVal a
  let y ← hexVal b
  let z ← hexVal c
  let w ← hexVal d
  pure (x * 4096 + y * 256 + z * 16 + w)

mutual

/-- Body of a JSON string literal after the opening quote, as read by the
strict Python json scanner: literal characters up to the closing quote with
raw control characters rejected, escapes handled by parseEscape. The fuel
argument makes the mutual recursion structural; every entry point passes
more fuel than there are characters left, and each step consumes at least
one character. -/
def parseStringBody : Nat → List Char → List Char → Option (String × List Char)
  | 0, _, _ => none
  | fuel + 1, acc, cs =>
      match cs with
      | [] => none
      | c :: rest =>
          if c = '"' then some (String.mk acc.reverse, rest)
          else if c = '\\' then parseEscape fuel acc rest
          else if c.toNat < 32 then none
          else parseStringBody fuel (c :: acc) rest

/-- One escape sequence after a backslash: the eight single-character
escapes, or a backslash-u escape read by parseUEscape. -/
def parseEscape : Nat → List Char → List Char → Option (String × List Char)
  | 0, _, _ => none
  | fuel + 1, acc, cs =>
      match cs with
      | [] => none
      | e :: rest =>
          if e = '"' then parseStringBody fuel ('"' :: acc) rest
          else if e = '\\' then parseStringBody fuel ('\\' :: acc) rest
          else if e = '/' then parseStringBody fuel ('/' :: acc) rest
          else if e = 'b' then parseStringBody fuel ('\x08' :: acc) rest
          else if e = 'f' then parseStringBody fuel ('\x0c' :: acc) rest
          else if e = 'n' then parseStringBody fuel ('\n' :: acc) rest
          else if e = 'r' then parseStringBody fuel ('\r' :: acc) rest
          else if e = 't' then parseStringBody fuel ('\t' :: acc) rest
          else if e = 'u' then parseUEscape fuel acc rest
          else none

/-- A backslash-u escape after its introducing characters: four hexadecimal
digits, with a high surrogate handed to parseLowSurrogate for
recombination. A lone surrogate, which Python would keep as an unpaired
code unit, has no representation as a Lean character and is rejected;
json.dumps never emits one. -/
def parseUEscape : Nat → List Char → List Char → Option (String × List Char)
  | 0, _, _ => none
  | fuel + 1, acc, cs =>
      match cs with
      | d1 :: d2 :: d3 :: d4 :: rest2 =>
          (hexVal4 d1 d2 d3 d4).bind fun u =>
            if 55296 ≤ u ∧ u < 56320 then parseLowSurrogate fuel acc u rest2
            else if 56320 ≤ u ∧ u < 57344 then none
            else parseStringBody fuel (Char.ofNat u :: acc) rest2
      | _ => none

/-- The tail of a surrogate pair: a backslash-u escape holding a low
surrogate, combined with the high surrogate u already read. -/
def parseLowSurrogate : Nat → List Char → Nat → List Char → Option (String × List Char)
  | 0, _, _, _ => none
  | fuel + 1, acc, u, cs =>
      match cs with
      | e1 :: e2 :: g1 :: g2 :: g3 :: g4 :: rest3 =>
          if e1 = '\\' ∧ e2 = 'u' then
            (hexVal4 g1 g2 g3 g4).bind fun u2 =>
              if 56320 ≤ u2 ∧ u2 < 57344 then
                parseStringBody fuel
                  (Char.ofNat (65536 + (u - 55296) * 1024 + (u2 - 56320)) :: acc) rest3
              else none
          else none
      | _ => none

end

/-- Greedy run of decimal digits, accumulating left to right. -/
def parseDigitsGo (acc : Nat) : List Char → Nat × List Char
  | [] => (acc, [])
  | c :: cs => if c.isDigit then parseDigitsGo (acc * 10 + (c.toNat - 48)) cs else (acc, c :: cs)

/-- Unsigned integer part of a JSON numeral: a single zero, or a nonzero
leading digit followed by a greedy digit run, per the json number grammar. -/
def parseUIntPart : List Char → Option (Nat × List Char)
  | [] => none
  | c :: rest =>
      if c = '0' then some (0, rest)
      else if c.isDigit then some (parseDigitsGo (c.toNat - 48) rest)
      else none

/-- Whether the remaining text would continue the numeral into a fraction or
exponent. Such numerals are floats, which are outside this model. -/
def floatFollows : List Char → Bool
  | c :: _ => c = '.' || c = 'e' || c = 'E'
  | [] => false

/-- A JSON integer numeral with optional leading minus sign. -/
def parseNumber : List Char → Option (Int × List Char)
  | [] => none
  | c :: rest =>
      if c = '-' then
        match parseUIntPart rest with
        | some (n, r) => if floatFollows r then none else some (-(n : Int), r)
        | none => none
      else
        match parseUIntPart (c :: rest) with
        | some (n, r) => if floatFollows r then none else some ((n : Int), r)
        | none => none

mutual

/-- One JSON value at the head of the input (leading whitespace already
skipped), dispatching on the first character exactly as the Python json
scanner does. The fuel argument bounds the recursion and is given one more
than the input length at the top entry point; every step consumes at least
one character before recursing. -/
def parseValue : Nat → List Char → Option (Json × List Char)
  | 0, _ => none
  | _ + 1, [] => none
  | fuel + 1, c :: rest =>
      if c = '"' then
        (parseStringBody fuel [] rest).map fun p => (Json.str p.1, p.2)
      else if c = '{' then
        match skipWs rest with
        | '}' :: rest2 => some (.obj .nil, rest2)
        | cs2 => (parseObjItems fuel .nil cs2).map fun p => (Json.obj p.1, p.2)
      else if c = '[' then
        match skipWs rest with
        | ']' :: rest2 => some (.arr .nil, rest2)
        | cs2 => (parseArrItems fuel cs2).map fun p => (Json.arr p.1, p.2)
      else if c = 't' then
        match rest with
        | 'r' :: 'u' :: 'e' :: r => some (.bool true, r)
        | _ => none
      else if c = 'f' then
        match rest with
        | 'a' :: 'l' :: 's' :: 'e' :: r => some (.bool false, r)
        | _ => none
      else if c = 'n' then
        match rest with
        | 'u' :: 'l' :: 'l' :: r => some (.null, r)
        | _ => none
      else if c = '-' || c.isDigit then
        (parseNumber (c :: rest)).map fun p => (Json.num p.1, p.2)
      else none

/-- Items of a nonempty array, the input standing at the start of the next
item with whitespace already skipped. -/
def parseArrItems : Nat → List Char → Option (JsonList × List Char)
  | 0, _ => none
  | fuel + 1, cs =>
      (parseValue fuel cs).bind fun vr =>
        parseArrAfterValue fuel vr.1 (skipWs vr.2)

/-- After one array item: a comma continues the array, a closing bracket
ends it. -/
def parseArrAfterValue : Nat → Json → List Char → Option (JsonList × List Char)
  | 0, _, _ => none
  | fuel + 1, v, cs =>
      match cs with
      | ',' :: r2 =>
          (parseArrItems fuel (skipWs r2)).map fun p => (JsonList.cons v p.1, p.2)
      | ']' :: r2 => some (.cons v .nil, r2)
      | _ => none

/-- Entries of a nonempty object, the input standing at the opening quote of
the next key with whitespace already skipped. -/
def parseObjItems : Nat → JsonObj → List Char → Option (JsonObj × List Char)
  | 0, _, _ => none
  | fuel + 1, acc, cs =>
      match cs with
      | '"' :: rest =>
          (parseStringBody fuel [] rest).bind fun kr =>
            parseObjColon fuel acc kr.1 (skipWs kr.2)
      | _ => none

/-- After an object key: a colon introduces the value. Entries are added to
the accumulated dict with the item-assignment semantics of Python dicts, so
a repeated key keeps its first position and its last value. -/
def parseObjColon : Nat → JsonObj → String → List Char → Option (JsonObj × List Char)
  | 0, _, _, _ => none
  | fuel + 1, acc, k, cs =>
      match cs with
      | ':' :: r2 =>
          (parseValue fuel (skipWs r2)).bind fun vr =>
            parseObjAfterValue fuel (acc.setItem k vr.1) (skipWs vr.2)
      | _ => none

/-- After one object entry: a comma continues the object, a closing brace
ends it. -/
def parseObjAfterValue : Nat → JsonObj → List Char → Option (JsonObj × List Char)
  | 0, _, _ => none
  | fuel + 1, acc, cs =>
      match cs with
      | ',' :: r4 => parseObjItems fuel acc (skipWs r4)
      | '}' :: r4 => some (acc, r4)
      | _ => none

end

/-- Model of json.loads on the integer-numeral fragment of JSON: parse one
value after leading whitespace and require only whitespace to follow. -/
def jsonLoads (s : String) : Option Json :=
  match parseValue (s.data.length + 1) (skipWs s.data) with
  | some (v, rest) => if skipWs rest = [] then some v else none
  | none => none

end Loads

section Extractor

/-- Characters between the first opening brace and the last closing brace of
the raw response, with the find and rfind results fed to Python slicing
exactly as in the source (so an absent brace contributes -1). -/
def candidateChars (s : String) : List Char :=
  pySlice s.data (pyFind s.data '{') (pyRfind s.data '}' + 1)

/-- The parse-failure sentinel StageResult: an error marker together with the
full original raw response. -/
def errorSentinel (s : String) : Json :=
  .obj (.cons "error" (.str "Failed to parse AI response")
    (.cons "raw_response" (.str s) .nil))

/-- Model of TDLRApplicationProcessor._parse_json_response: slice from the
first opening brace to the last closing brace, parse that candidate, and on
any parse failure return the sentinel instead of raising. -/
def parseJsonResponse (s : String) : Json :=
  match jsonLoads (String.mk (candidateChars s)) with
  | some v => v
  | none => errorSentinel s

end Extractor

section Templates

/-- Literal segment A of the completeness_check template, the text
between its placeholders with the doubled braces of the source collapsed
as str.format does. -/
def completenessTplA : String :=
  "\n            You are an expert Texas Department of Licensing and Regulation (TDLR) application reviewer.\n            \n            ROLE: Document completeness validator\n            TASK: Analyze the provided license application for completeness and accuracy\n            CONTEXT: TDLR requires specific documents and information for each license type\n            \n            REQUIRED DOCUMENTS FOR "


/-- Literal segment B of the completeness_check template, the text
between its placeholders with the doubled braces of the source collapsed
as str.format does. -/
def completenessTplB : String :=
  ":\n            - Completed application form\n            - Proof of insurance (minimum coverage requirements)\n            - Background check results (not older than 90 days)\n            - Fee payment confirmation\n            - Work experience verification\n            - Training certificates (if applicable)\n            \n            APPLICATION DATA:\n            "


/-- Literal segment C of the completeness_check template, the text
between its placeholders with the doubled braces of the source collapsed
as str.format does. -/
def completenessTplC : String :=
  "\n            \n            EVALUATION CRITERIA:\n            1. Check each required document (Present/Missing/Incomplete)\n            2. Verify information consistency across documents\n            3. Identify any red flags or inconsistencies\n            4. Assign completeness score (0-100)\n            \n            RETURN STRICTLY IN THIS JSON FORMAT:\n            \x7b\n                \"completeness_score\": 0-100,\n                \"missing_documents\": [\"list of missing items\"],\n                \"incomplete_documents\": [\"list of incomplete items\"],\n                \"consistency_issues\": [\"list of inconsistencies found\"],\n                \"next_actions\": [\"list of required actions\"],\n                \"processing_priority\": \"High/Standard/Low\",\n                \"estimated_resolution_time\": \"X business days\"\n            \x7d\n            "

/-- Literal segment A of the risk_assessment template, the text
between its placeholders with the doubled braces of the source collapsed
as str.format does. -/
def riskTplA : String :=
  "\n            You are a TDLR risk assessment specialist with expertise in identifying potential licensing risks.\n            \n            ROLE: Risk analysis expert\n            TASK: Evaluate application for potential risks and compliance issues\n            CONTEXT: Protect public safety while ensuring fair licensing practices\n            \n            RISK FACTORS TO EVALUATE:\n            - Criminal background (type, severity, recency, relevance to license)\n            - Previous license violations or suspensions\n            - Financial history (bankruptcies, liens, judgments)\n            - Work history gaps or inconsistencies\n            - Insurance coverage adequacy\n            - Training/certification currency\n            \n            APPLICATION DATA:\n            "


/-- Literal segment B of the risk_assessment template, the text
between its placeholders with the doubled braces of the source collapsed
as str.format does. -/
def riskTplB : String :=
  "\n            \n            RISK SCORING SCALE:\n            - Low Risk (1-3): Standard processing, minimal oversight\n            - Medium Risk (4-6): Additional documentation or interview required\n            - High Risk (7-9): Management review and possible hearing required\n            - Critical Risk (10): Immediate escalation and potential denial\n            \n            RETURN STRICTLY IN THIS JSON FORMAT:\n            \x7b\n                \"risk_score\": 1-10,\n                \"risk_level\": \"Low/Medium/High/Critical\",\n                \"risk_factors\": [\"list of identified risks\"],\n                \"mitigation_recommendations\": [\"list of recommended actions\"],\n                \"reviewer_notes\": \"detailed analysis for human reviewer\",\n                \"requires_human_review\": true/false,\n                \"recommended_action\": \"Approve/Request_Additional_Info/Schedule_Interview/Deny\"\n            \x7d\n            "

/-- Literal segment A of the final_recommendation template, the text
between its placeholders with the doubled braces of the source collapsed
as str.format does. -/
def recTplA : String :=
  "\n            You are a senior TDLR licensing officer making final processing recommendations.\n            \n            ROLE: Senior licensing decision maker\n            TASK: Synthesize completeness and risk assessments into final recommendation\n            CONTEXT: Balance public protection with fair licensing practices\n            \n            COMPLETENESS ASSESSMENT:\n            "


/-- Literal segment B of the final_recommendation template, the text
between its placeholders with the doubled braces of the source collapsed
as str.format does. -/
def recTplB : String :=
  "\n            \n            RISK ASSESSMENT:\n            "


/-- Literal segment C of the final_recommendation template, the text
between its placeholders with the doubled braces of the source collapsed
as str.format does. -/
def recTplC : String :=
  "\n            \n            DECISION CRITERIA:\n            - Applications must be >80% complete for approval consideration\n            - Risk scores >6 require additional review\n            - All safety-critical positions require enhanced scrutiny\n            - Consider applicant's demonstration of good faith compliance efforts\n            \n            RETURN STRICTLY IN THIS JSON FORMAT:\n            \x7b\n                \"final_recommendation\": \"Approve/Conditional_Approve/Request_Additional_Info/Deny\",\n                \"conditions\": [\"list of approval conditions if applicable\"],\n                \"required_actions\": [\"list of actions needed before final approval\"],\n                \"processing_timeline\": \"X business days\",\n                \"priority_flag\": \"Standard/Expedite/Hold\",\n                \"reviewer_notes\": \"summary for licensing staff\",\n                \"citizen_communication\": \"message to send to applicant\"\n            \x7d\n            "


mutual

/-- Python repr of a JSON-compatible value, used by str.format when a
non-string value is substituted into a template. String escaping inside repr
is simplified to plain quoting; only the sample records of the repository,
whose strings contain no quotes, are ever rendered this way. -/
def pyRepr : Json → String
  | .null => "None"
  | .bool true => "True"
  | .bool false => "False"
  | .num n => String.mk (intToChars n)
  | .str s => "'" ++ s ++ "'"
  | .arr .nil => "[]"
  | .arr (.cons x xs) => "[" ++ pyRepr x ++ pyReprArrRest xs ++ "]"
  | .obj .nil => "{}"
  | .obj (.cons k v kvs) =>
      "\x7b'" ++ k ++ "': " ++ pyRepr v ++ pyReprObjRest kvs ++ "\x7d"

/-- Comma-separated repr of the remaining list elements. -/
def pyReprArrRest : JsonList → String
  | .nil => ""
  | .cons x xs => ", " ++ pyRepr x ++ pyReprArrRest xs

/-- Comma-separated repr of the remaining dict entries. -/
def pyReprObjRest : JsonObj → String
  | .nil => ""
  | .cons k v kvs => ", '" ++ k ++ "': " ++ pyRepr v ++ pyReprObjRest kvs

end

/-- Python str() of a value substituted by str.format: strings are inserted
verbatim, everything else through its repr. -/
def pyStr : Json → String
  | .str s => s
  | v => pyRepr v

/-- Prompt built by _check_completeness: the completeness template with
license_type bound to application_data.get("license_type", "General") and
application_data bound to json.dumps(application_data, indent=2). -/
def checkCompletenessPrompt (app : JsonObj) : String :=
  completenessTplA ++ pyStr (app.getD "license_type" (.str "General")) ++
  completenessTplB ++ jsonDumps (.obj app) ++ completenessTplC

/-- Prompt built by _assess_risk: the risk template with application_data
bound to json.dumps(application_data, indent=2). -/
def assessRiskPrompt (app : JsonObj) : String :=
  riskTplA ++ jsonDumps (.obj app) ++ riskTplB

/-- Prompt built by _generate_recommendation: the final-recommendation
template with both prior stage results bound through json.dumps(_, indent=2). -/
def generateRecommendationPrompt (completeness risk : Json) : String :=
  recTplA ++ jsonDumps completeness ++ recTplB ++ jsonDumps risk ++ recTplC

end Templates

section Pipeline

/-- The combined record assembled by process_application before persisting:
its fixed top-level keys, with the three stage results and the static
processing metadata. -/
structure ProcessingResult where
  application_id : Json
  license_type : Json
  processing_date : String
  completeness_check : Json
  risk_assessment : Json
  final_recommendation : Json
  model_used : String
deriving DecidableEq, Repr

/-- The dict that process_application assembles, in the key order of the
source, as handed to _save_results. -/
def processingResultToJson (r : ProcessingResult) : Json :=
  .obj (.ofList [
    ("application_id", r.application_id),
    ("license_type", r.license_type),
    ("processing_date", .str r.processing_date),
    ("completeness_check", r.completeness_check),
    ("risk_assessment", r.risk_assessment),
    ("final_recommendation", r.final_recommendation),
    ("processing_metadata", .obj (.ofList [
      ("model_used", .str r.model_used),
      ("processing_time", .str "< 30 seconds"),
      ("cost_estimate", .str "$0.12")]))])

/-- File name _save_results derives from the wall clock at second
granularity. -/
def saveFilename (stamp : String) : String :=
  "outputs/processing_results_" ++ stamp ++ ".json"

/-- Model of process_application. The reasoning-service boundary is the
oracle call from prompt text to raw response text or failure; nowIso and
nowStamp are the two renderings of the wall clock the source takes during
one run; store is the file system sink of _save_results, a list of saved
records in write order. Returned are the surfalong value or error, the
list of prompts sent to the service in order, and the updated store. A
service failure at any stage propagates out of the try block unchanged and
reaches the caller; only a fully assembled record is ever saved. -/
def processApplication (call : String → Except PyErr String)
    (model nowIso nowStamp : String) (app : JsonObj)
    (store : List (String × Json)) :
    Except PyErr ProcessingResult × List String × List (String × Json) :=
  let p1 := checkCompletenessPrompt app
  match call p1 with
  | .error e => (.error e, [p1], store)
  | .ok t1 =>
      let completeness := parseJsonResponse t1
      let p2 := assessRiskPrompt app
      match call p2 with
      | .error e => (.error e, [p1, p2], store)
      | .ok t2 =>
          let risk := parseJsonResponse t2
          let p3 := generateRecommendationPrompt completeness risk
          match call p3 with
          | .error e => (.error e, [p1, p2, p3], store)
          | .ok t3 =>
              let final := parseJsonResponse t3
              let result : ProcessingResult :=
                ⟨app.getN "application_id", app.getN "license_type", nowIso,
                 completeness, risk, final, model⟩
              (.ok result, [p1, p2, p3],
               store ++ [(saveFilename nowStamp, processingResultToJson result)])

end Pipeline

section TestSuite

mutual

/-- Python equality on JSON-compatible values: structural on lists and
strings, numeric across bool and int (Python bools are ints), and key-set
based on dicts, where insertion order does not matter. -/
def jsonEqB : Json → Json → Bool
  | .null, .null => true
  | .bool a, .bool b => a == b
  | .bool a, .num n => (if a then (1 : Int) else 0) == n
  | .num n, .bool b => n == (if b then (1 : Int) else 0)
  | .num m, .num n => m == n
  | .str s, .str t => s == t
  | .arr xs, .arr ys => jsonListEqB xs ys
  | .obj a, .obj b => a.size == b.size && jsonObjSubB a b
  | _, _ => false

/-- Elementwise Python equality of two lists. -/
def jsonListEqB : JsonList → JsonList → Bool
  | .nil, .nil => true
  | .cons x xs, .cons y ys => jsonEqB x y && jsonListEqB xs ys
  | _, _ => false

/-- Whether every entry of the first dict has an equal entry in the second. -/
def jsonObjSubB : JsonObj → JsonObj → Bool
  | .nil, _ => true
  | .cons k v kvs, b =>
      (match b.lookup? k with
       | some w => jsonEqB v w
       | none => false) && jsonObjSubB kvs b

end

/-- Python str.lower on one character, on the ASCII range that all risk
labels in the repository use. -/
def pyLowerChar (c : Char) : Char :=
  if 65 ≤ c.toNat ∧ c.toNat ≤ 90 then Char.ofNat (c.toNat + 32) else c

/-- Python str.lower, ASCII range. -/
def pyLower (s : String) : String :=
  String.mk (s.data.map pyLowerChar)

/-- Python value.get(key, default) on a dynamic value: works on a dict,
raises AttributeError on anything else. -/
def jsonDictGetD (v : Json) (key : String) (d : Json) : Except PyErr Json :=
  match v with
  | .obj kvs => .ok (kvs.getD key d)
  | _ => .error .attributeError

/-- Python value.lower() on a dynamic value: works on a string, raises
AttributeError on anything else. -/
def jsonLower (v : Json) : Except PyErr String :=
  match v with
  | .str s => .ok (pyLower s)
  | _ => .error .attributeError

/-- Python comparison value >= k against an int: numbers and bools compare,
anything else raises TypeError. -/
def jsonGeInt (v : Json) (k : Int) : Except PyErr Bool :=
  match v with
  | .num n => .ok (decide (k ≤ n))
  | .bool b => .ok (decide (k ≤ (if b then (1 : Int) else 0)))
  | _ => .error .typeError

/-- Python comparison value < k against an int. -/
def jsonLtInt (v : Json) (k : Int) : Except PyErr Bool :=
  match v with
  | .num n => .ok (decide (n < k))
  | .bool b => .ok (decide ((if b then (1 : Int) else 0) < k))
  | _ => .error .typeError

/-- Python comparison value <= k against an int. -/
def jsonLeInt (v : Json) (k : Int) : Except PyErr Bool :=
  match v with
  | .num n => .ok (decide (n ≤ k))
  | .bool b => .ok (decide ((if b then (1 : Int) else 0) ≤ k))
  | _ => .error .typeError

/-- Python numeric value of a score list element, for statistics.variance. -/
def jsonToQ (v : Json) : Except PyErr ℚ :=
  match v with
  | .num n => .ok (n : ℚ)
  | .bool b => .ok (if b then 1 else 0)
  | _ => .error .typeError

/-- Model of statistics.variance: raises StatisticsError on fewer than two
data points, otherwise the exact sample variance of the numeric values. -/
def pyVariance (xs : List Json) : Except PyErr ℚ :=
  if xs.length < 2 then .error .statisticsError
  else do
    let ns ← xs.mapM jsonToQ
    let n : ℚ := xs.length
    let m := ns.sum / n
    pure ((ns.map (fun x => (x - m) ^ 2)).sum / (n - 1))

/-- The fixed sample ApplicationRecord of load_sample_application. -/
def sampleApplication : JsonObj := .ofList [
  ("application_id", .str "TDLR-2024-AC-12345"),
  ("license_type", .str "Air Conditioning Contractor"),
  ("applicant_info", .obj (.ofList [
      ("name", .str "John Smith"),
      ("business_name", .str "Smith HVAC Services"),
      ("address", .str "123 Main St, Austin, TX 78701"),
      ("phone", .str "(512) 555-0123"),
      ("email", .str "john@smithhvac.com")])),
  ("documents_submitted", .arr (.ofList [
      .str "Application Form TDLR-AC-001",
      .str "Proof of Insurance - General Liability $1M",
      .str "Background Check - Travis County Sheriff",
      .str "Payment Receipt - $185 Application Fee"])),
  ("work_experience", .obj (.ofList [
      ("years_experience", .num 8),
      ("previous_employers", .arr (.ofList [.str "ABC Cooling", .str "XYZ Mechanical"])),
      ("certifications", .arr (.ofList [.str "EPA 608 Universal", .str "NATE Certified"]))])),
  ("background_info", .obj (.ofList [
      ("criminal_history", .str "None reported"),
      ("license_violations", .str "None"),
      ("financial_history", .str "No bankruptcies or liens")]))]

/-- Python dict-literal update with unpacking: item assignment of each
override in order, so an existing key keeps its position and a new key goes
to the end. -/
def JsonObj.updateMany (base : JsonObj) (overrides : List (String × Json)) : JsonObj :=
  overrides.foldl (fun acc kv => acc.setItem kv.1 kv.2) base

/-- The five TestCases of _generate_test_cases, each the sample record with
the overrides of the source. -/
def generateTestCases : List JsonObj := [
  sampleApplication.updateMany [("test_name", .str "complete_application")],
  sampleApplication.updateMany [
    ("documents_submitted", .arr (.ofList [.str "Application Form TDLR-AC-001"])),
    ("test_name", .str "missing_documents"),
    ("expected_completeness", .str "low")],
  sampleApplication.updateMany [
    ("background_info", .obj (.ofList [
        ("criminal_history", .str "Misdemeanor theft 2019"),
        ("license_violations", .str "Previous suspension 2020"),
        ("financial_history", .str "Chapter 7 bankruptcy 2021")])),
    ("test_name", .str "high_risk_applicant"),
    ("expected_risk", .str "high")],
  sampleApplication.updateMany [
    ("work_experience", .obj (.ofList [
        ("years_experience", .num 1),
        ("previous_employers", .arr (.ofList [.str "Recent Graduate"])),
        ("certifications", .arr (.ofList [.str "EPA 608 Core Only"]))])),
    ("test_name", .str "minimal_experience"),
    ("expected_risk", .str "medium")],
  sampleApplication.updateMany [
    ("work_experience", .obj (.ofList [
        ("years_experience", .num 15),
        ("previous_employers", .arr (.ofList [.str "Major HVAC Corp", .str "Elite Mechanical"])),
        ("certifications", .arr (.ofList [
            .str "EPA 608 Universal", .str "NATE Certified", .str "Master Technician"]))])),
    ("background_info", .obj (.ofList [
        ("criminal_history", .str "None"),
        ("license_violations", .str "None"),
        ("financial_history", .str "Excellent credit, business owner")])),
    ("test_name", .str "excellent_applicant"),
    ("expected_completeness", .str "high"),
    ("expected_risk", .str "low")]]

/-- The fixed record the consistency test re-runs: test case zero. -/
def consistencyTestCase : JsonObj := generateTestCases.getD 0 .nil

/-- The metrics dict run_consistency_test assembles. -/
structure ConsistencyMetrics where
  completeness_score_variance : ℚ
  risk_score_variance : ℚ
  completeness_scores : List Json
  risk_scores : List Json
  consistency_rating : String
deriving DecidableEq, Repr

/-- The iteration loop of run_consistency_test: run the pipeline on the
fixed test case the given number of times, collecting results in order and
threading the result store; a pipeline error propagates, keeping the files
already written. -/
def consistencyLoop (call : String → Except PyErr String)
    (model nowIso nowStamp : String) :
    Nat → List ProcessingResult → List (String × Json) →
    Except PyErr (List ProcessingResult) × List (String × Json)
  | 0, acc, store => (.ok acc, store)
  | n + 1, acc, store =>
      match processApplication call model nowIso nowStamp consistencyTestCase store with
      | (.error e, _, store2) => (.error e, store2)
      | (.ok r, _, store2) =>
          consistencyLoop call model nowIso nowStamp n (acc ++ [r]) store2

/-- Model of run_consistency_test: the iteration loop, then the metrics
dict, whose values are evaluated in source order — the two variance entries
are guarded by a length check, but the consistency_rating entry calls
statistics.variance on the completeness scores unconditionally. -/
def runConsistencyTest (call : String → Except PyErr String)
    (model nowIso nowStamp : String) (iterations : Nat)
    (store : List (String × Json)) :
    Except PyErr ConsistencyMetrics × List (String × Json) :=
  match consistencyLoop call model nowIso nowStamp iterations [] store with
  | (.error e, store2) => (.error e, store2)
  | (.ok results, store2) =>
      let metrics : Except PyErr ConsistencyMetrics := do
        let cls ← results.mapM
          (fun r => jsonDictGetD r.completeness_check "completeness_score" (.num 0))
        let rss ← results.mapM
          (fun r => jsonDictGetD r.risk_assessment "risk_score" (.num 0))
        let v1 ← if cls.length > 1 then pyVariance cls else pure 0
        let v2 ← if rss.length > 1 then pyVariance rss else pure 0
        let vr ← pyVariance cls
        pure ⟨v1, v2, cls, rss, if vr < 5 then "High" else "Medium"⟩
      (metrics, store2)

/-- Model of _validate_test_result: score the expectations present on the
test case, falling back to the two default checks when none are, with the
evaluation order and the dynamic-typing failure modes of the source. -/
def validateTestResult (tc : JsonObj) (res : ProcessingResult) : Except PyErr ℚ := do
  let (acc1, tot1) ←
    match tc.lookup? "expected_completeness" with
    | none => pure ((0 : ℚ), (0 : Nat))
    | some ev => do
        let cs ← jsonDictGetD res.completeness_check "completeness_score" (.num 0)
        if jsonEqB ev (.str "high") then do
          let b ← jsonGeInt cs 80
          pure ((if b then (1 : ℚ) else 0), 1)
        else if jsonEqB ev (.str "low") then do
          let b ← jsonLtInt cs 60
          pure ((if b then (1 : ℚ) else 0), 1)
        else pure (0, 1)
  let (acc2, tot2) ←
    match tc.lookup? "expected_risk" with
    | none => pure ((0 : ℚ), (0 : Nat))
    | some ev => do
        let rl ← jsonDictGetD res.risk_assessment "risk_level" (.str "")
        let rls ← jsonLower rl
        let evs ← jsonLower ev
        pure ((if evs = rls then (1 : ℚ) else 0), 1)
  if tot1 + tot2 = 0 then do
    let cs ← jsonDictGetD res.completeness_check "completeness_score" (.num 0)
    let rs ← jsonDictGetD res.risk_assessment "risk_score" (.num 10)
    let b1 ← jsonGeInt cs 70
    let b2 ← jsonLeInt rs 5
    pure (((if b1 then (1 : ℚ) else 0) + (if b2 then (1 : ℚ) else 0)) / 2 * 100)
  else
    pure ((acc1 + acc2) / (tot1 + tot2 : ℚ) * 100)

/-- Modelled from the spec: the accuracy formula of section 4.7 and section 8
in the words of the spec, for comparison with validateTestResult. For each
expectation present one check is scored — expected_completeness high passes
exactly when the completeness score is at least 80, low exactly when it is
below 60, and expected_risk passes exactly when it matches the reported risk
level — and a case with no expectations falls back to the two default checks,
completeness at least 70 and risk score at most 5, each worth half; accuracy
is the percentage of checks passed. -/
def specAccuracy (ec er : Option String) (cs rs : Int) (rl : String) : ℚ :=
  let checks : List Bool :=
    (match ec with
     | some l =>
         [if l = "high" then decide (80 ≤ cs)
          else if l = "low" then decide (cs < 60)
          else false]
     | none => []) ++
    (match er with
     | some e => [decide (pyLower e = pyLower rl)]
     | none => [])
  let checks := if checks.isEmpty then [decide (70 ≤ cs), decide (rs ≤ 5)] else checks
  ((checks.count true : ℚ) / (checks.length : ℚ)) * 100

end TestSuite

section CharLemmas

/-- Two characters with the same code point are equal. -/
theorem char_eq_of_toNat_eq {c d : Char} (h : c.toNat = d.toNat) : c = d :=
  Char.eq_of_val_eq (UInt32.eq_of_toBitVec_eq (BitVec.eq_of_toNat_eq h))

/-- Character equality through code points. -/
theorem char_eq_iff_toNat {c d : Char} : c = d ↔ c.toNat = d.toNat :=
  ⟨fun h => h ▸ rfl, char_eq_of_toNat_eq⟩

/-- Code points of characters are valid scalar values: below the surrogate
range or above it and below 0x110000. -/
theorem char_toNat_valid (c : Char) :
    c.toNat < 55296 ∨ (57344 ≤ c.toNat ∧ c.toNat < 1114112) := by
  have h := c.valid
  unfold Nat.isValidChar at h
  simpa [Char.toNat] using h

/-- Building a character from a valid code point preserves the code point. -/
theorem char_toNat_ofNat {n : Nat} (h : Nat.isValidChar n) :
    (Char.ofNat n).toNat = n := by
  simp [Char.ofNat, h, Char.ofNatAux, Char.toNat, UInt32.toNat, BitVec.toNat_ofNatLt]

/-- Digit test through code points. -/
theorem isDigit_iff_toNat {c : Char} :
    c.isDigit = true ↔ 48 ≤ c.toNat ∧ c.toNat ≤ 57 := by
  simp [Char.isDigit, Char.le_def, Char.toNat, UInt32.le_def, UInt32.toNat, BitVec.le_def]

/-- Whitespace test through code points. -/
theorem isWsChar_iff_toNat {c : Char} :
    isWsChar c = true ↔ c.toNat = 32 ∨ c.toNat = 9 ∨ c.toNat = 10 ∨ c.toNat = 13 := by
  simp only [isWsChar, char_eq_iff_toNat, Bool.or_eq_true, decide_eq_true_eq]
  tauto

end CharLemmas

section ExtractorLemmas

/-- A successful first-occurrence search returns a position holding the
sought character. -/
theorem pyFindAux_some {c : Char} : ∀ {cs : List Char} {i : Nat},
    pyFindAux c cs = some i → i < cs.length ∧ cs[i]? = some c := by
  intro cs
  induction cs with
  | nil => intro i h; simp [pyFindAux] at h
  | cons x xs ih =>
      intro i h
      by_cases hx : x = c
      · simp [pyFindAux, hx] at h
        subst h hx
        simp
      · simp [pyFindAux, hx] at h
        obtain ⟨j, hj, rfl⟩ := h
        obtain ⟨h1, h2⟩ := ih hj
        exact ⟨by simpa using h1, by simpa using h2⟩

/-- A successful last-occurrence search returns a position holding the
sought character. -/
theorem pyRfindAux_some {c : Char} : ∀ {cs : List Char} {i : Nat},
    pyRfindAux c cs = some i → i < cs.length ∧ cs[i]? = some c := by
  intro cs
  induction cs with
  | nil => intro i h; simp [pyRfindAux] at h
  | cons x xs ih =>
      intro i h
      unfold pyRfindAux at h
      cases hr : pyRfindAux c xs with
      | some j =>
          rw [hr] at h
          obtain rfl : j + 1 = i := by simpa using h
          obtain ⟨h1, h2⟩ := ih hr
          exact ⟨by simpa using h1, by simpa using h2⟩
      | none =>
          rw [hr] at h
          by_cases hx : x = c
          · simp [hx] at h
            subst hx
            obtain rfl : i = 0 := by simpa using h.symm
            simp
          · simp [hx] at h

/-- The minus-one sentinel of find corresponds to an absent character. -/
theorem pyFind_neg_iff {cs : List Char} {c : Char} :
    pyFind cs c = -1 ↔ pyFindAux c cs = none := by
  unfold pyFind
  cases h : pyFindAux c cs with
  | some i => simp
  | none => simp

/-- The minus-one sentinel of rfind corresponds to an absent character. -/
theorem pyRfind_neg_iff {cs : List Char} {c : Char} :
    pyRfind cs c = -1 ↔ pyRfindAux c cs = none := by
  unfold pyRfind
  cases h : pyRfindAux c cs with
  | some i => simp
  | none => simp

/-- Python slicing with nonnegative bounds is take then drop. -/
theorem pySlice_nat (cs : List Char) (a b : Nat) :
    pySlice cs (a : Int) (b : Int) = (cs.take b).drop a := by
  unfold pySlice
  have ha : ¬((a : Int) < 0) := by omega
  have hb : ¬((b : Int) < 0) := by omega
  simp only [ha, hb, if_false]
  rcases le_or_lt (a : Int) (cs.length : Int) with h1 | h1
  · rcases le_or_lt (b : Int) (cs.length : Int) with h2 | h2
    · have e1 : (min (b : Int) (cs.length : Int)).toNat = b := by omega
      have e2 : (min (a : Int) (cs.length : Int)).toNat = a := by omega
      rw [e1, e2]
    · have e1 : (min (b : Int) (cs.length : Int)).toNat = cs.length := by omega
      have e2 : (min (a : Int) (cs.length : Int)).toNat = a := by omega
      rw [e1, e2, List.take_length, List.take_of_length_le (by omega)]
  · have e2 : (min (a : Int) (cs.length : Int)).toNat = cs.length := by omega
    rw [e2]
    have l1 : (cs.take ((min (b : Int) (cs.length : Int)).toNat)).drop cs.length = [] :=
      List.drop_eq_nil_of_le (by simp)
    have r1 : (cs.take b).drop a = [] :=
      List.drop_eq_nil_of_le (by simp [List.length_take]; omega)
    rw [l1, r1]

end ExtractorLemmas

section SkipWsLemmas

/-- Skipping whitespace leaves a string whose head is not whitespace
untouched. -/
theorem skipWs_cons_of_not_ws {c : Char} {cs : List Char} (h : isWsChar c = false) :
    skipWs (c :: cs) = c :: cs := by
  simp [skipWs, h]

/-- Leading spaces are skipped. -/
theorem skipWs_replicate_space (k : Nat) (cs : List Char) :
    skipWs (List.replicate k ' ' ++ cs) = skipWs cs := by
  induction k with
  | zero => simp
  | succ n ih => simpa [skipWs, List.replicate_succ, isWsChar] using ih

/-- The newline-and-indent runs of json.dumps are skipped entirely. -/
theorem skipWs_nlIndent (k : Nat) (cs : List Char) :
    skipWs (nlIndent k ++ cs) = skipWs cs := by
  simp only [nlIndent, List.cons_append]
  rw [show skipWs ('\n' :: (List.replicate k ' ' ++ cs)) =
      skipWs (List.replicate k ' ' ++ cs) by simp [skipWs, isWsChar]]
  exact skipWs_replicate_space k cs

end SkipWsLemmas

section CandidateLemmas

/-- Python slicing from index minus one. -/
theorem pySlice_neg_one (cs : List Char) (b : Nat) :
    pySlice cs (-1) (b : Int) = (cs.take b).drop (cs.length - 1) := by
  unfold pySlice
  have h1 : ((-1 : Int)) < 0 := by norm_num
  have h2 : ¬((b : Int) < 0) := by omega
  simp only [h1, if_true, h2, if_false]
  have e1 : (max ((-1 : Int) + cs.length) 0).toNat = cs.length - 1 := by omega
  rcases le_or_lt (b : Int) cs.length with h3 | h3
  · have e2 : (min (b : Int) (cs.length : Int)).toNat = b := by omega
    rw [e1, e2]
  · have e2 : (min (b : Int) (cs.length : Int)).toNat = cs.length := by omega
    rw [e1, e2, List.take_length, List.take_of_length_le (by omega)]

/-- The candidate the extractor parses is empty, a lone closing brace, or
headed by an opening brace; the last shape requires both braces present. -/
theorem candidateChars_shape (s : String) :
    candidateChars s = [] ∨ candidateChars s = ['}'] ∨
    (∃ t, candidateChars s = '{' :: t ∧
      pyFindAux '{' s.data ≠ none ∧ pyRfindAux '}' s.data ≠ none) := by
  unfold candidateChars pyFind pyRfind
  cases hf : pyFindAux '{' s.data with
  | none =>
      cases hr : pyRfindAux '}' s.data with
      | none =>
          left
          have hb : ((-1 : Int) + 1) = ((0 : Nat) : Int) := by norm_num
          rw [hb, pySlice_neg_one]
          simp
      | some j =>
          obtain ⟨hj, hcj⟩ := pyRfindAux_some hr
          have hb : ((j : Int) + 1) = ((j + 1 : Nat) : Int) := by push_cast; ring
          rw [hb, pySlice_neg_one]
          by_cases hcase : j + 1 = s.data.length
          · right; left
            rw [hcase, List.take_length]
            have hlt : s.data.length - 1 < s.data.length := by omega
            rw [List.drop_eq_getElem_cons hlt, List.drop_eq_nil_of_le (by omega)]
            have hsome : s.data[s.data.length - 1]? = some '}' := by
              have hj' : s.data.length - 1 = j := by omega
              rw [hj']
              exact hcj
            rw [List.getElem?_eq_getElem hlt] at hsome
            rw [Option.some_inj.mp hsome]
          · left
            apply List.drop_eq_nil_of_le
            rw [List.length_take]
            omega
  | some i =>
      obtain ⟨hi, hci⟩ := pyFindAux_some hf
      cases hr : pyRfindAux '}' s.data with
      | none =>
          left
          have hb : ((-1 : Int) + 1) = ((0 : Nat) : Int) := by norm_num
          rw [hb, pySlice_nat]
          simp
      | some j =>
          obtain ⟨hj, hcj⟩ := pyRfindAux_some hr
          have hb : ((j : Int) + 1) = ((j + 1 : Nat) : Int) := by push_cast; ring
          rw [hb, pySlice_nat]
          by_cases hij : i ≤ j
          · right; right
            have hlen : i < (s.data.take (j + 1)).length := by
              rw [List.length_take]
              omega
            rw [List.drop_eq_getElem_cons hlen]
            have e : (s.data.take (j + 1))[i] = s.data[i] := List.getElem_take _
            have e2 : s.data[i] = '{' := by
              rw [List.getElem?_eq_getElem hi] at hci
              simpa using hci
            refine ⟨_, by rw [e, e2], by simp [hf], by simp [hr]⟩
          · left
            apply List.drop_eq_nil_of_le
            rw [List.length_take]
            omega

end CandidateLemmas

section C1Lemmas

/-- The empty candidate does not parse. -/
theorem jsonLoads_nil : jsonLoads (String.mk []) = none := by decide

/-- A lone closing brace does not parse. -/
theorem jsonLoads_rbrace : jsonLoads (String.mk ['}']) = none := by decide

/-- A parse that starts at an opening brace can only produce a dict. -/
theorem parseValue_obrace_isObj {fuel : Nat} {t r : List Char} {v : Json}
    (h : parseValue fuel ('{' :: t) = some (v, r)) : v.isObj = true := by
  cases fuel with
  | zero => simp [parseValue] at h
  | succ f =>
      rw [show parseValue (f + 1) ('{' :: t) =
          (match skipWs t with
           | '}' :: rest2 => some (.obj .nil, rest2)
           | cs2 => (parseObjItems f .nil cs2).map fun p => (Json.obj p.1, p.2))
          from rfl] at h
      split at h
      · obtain rfl : Json.obj .nil = v := congrArg Prod.fst (Option.some_inj.mp h)
        rfl
      · rcases ho : parseObjItems f .nil _ with _ | ⟨o, r2⟩
        · rw [ho] at h; cases h
        · rw [ho] at h
          obtain rfl : Json.obj o = v := congrArg Prod.fst (Option.some_inj.mp h)
          rfl

/-- Parsing an opening-brace-headed text yields a dict. -/
theorem jsonLoads_obrace_isObj {t : List Char} {v : Json}
    (h : jsonLoads (String.mk ('{' :: t)) = some v) : v.isObj = true := by
  unfold jsonLoads at h
  rw [show (String.mk ('{' :: t)).data = '{' :: t from rfl,
    skipWs_cons_of_not_ws (by decide)] at h
  split at h
  · rename_i v' rest heq
    split at h
    · exact Option.some_inj.mp h ▸ parseValue_obrace_isObj heq
    · cases h
  · cases h

/-- A successful extraction is a dict. -/
theorem loads_candidate_isObj {s : String} {v : Json}
    (h : jsonLoads (String.mk (candidateChars s)) = some v) : v.isObj = true := by
  rcases candidateChars_shape s with h1 | h1 | ⟨t, h1, _, _⟩ <;> rw [h1] at h
  · rw [jsonLoads_nil] at h; cases h
  · rw [jsonLoads_rbrace] at h; cases h
  · exact jsonLoads_obrace_isObj h

/-- With either brace absent, the candidate cannot parse. -/
theorem candidate_braceless_none {s : String}
    (h : pyFindAux '{' s.data = none ∨ pyRfindAux '}' s.data = none) :
    jsonLoads (String.mk (candidateChars s)) = none := by
  rcases candidateChars_shape s with h1 | h1 | ⟨t, h1, hf, hr⟩
  · rw [h1, jsonLoads_nil]
  · rw [h1, jsonLoads_rbrace]
  · rcases h with h | h
    · exact absurd h hf
    · exact absurd h hr

end C1Lemmas

/-- C1: for every input string, the response extractor returns a StageResult
mapping and never raises — in this embedding it is a total function whose
value is always a dict — and whenever the first opening brace or the last
closing brace is absent (find or rfind returns -1), or the candidate between
them fails to parse, the returned mapping is the parse-failure sentinel
carrying the error marker and the full original raw text. -/
theorem extract_total_and_failure_sentinel (s : String) :
    (parseJsonResponse s).isObj = true ∧
    ((pyFind s.data '{' = -1 ∨ pyRfind s.data '}' = -1 ∨
      jsonLoads (String.mk (candidateChars s)) = none) →
     parseJsonResponse s = errorSentinel s) := by
  constructor
  · unfold parseJsonResponse
    cases hl : jsonLoads (String.mk (candidateChars s)) with
    | some v => exact loads_candidate_isObj hl
    | none => rfl
  · intro h
    have hnone : jsonLoads (String.mk (candidateChars s)) = none := by
      rcases h with h | h | h
      · exact candidate_braceless_none (Or.inl (pyFind_neg_iff.mp h))
      · exact candidate_braceless_none (Or.inr (pyRfind_neg_iff.mp h))
      · exact h
    unfold parseJsonResponse
    rw [hnone]

/-- Witness for C1 at three concrete raw texts: the empty string, a
braceless text and an unbalanced one all return the sentinel, which is a
dict. -/
theorem extract_total_and_failure_sentinel_witness :
    (parseJsonResponse "").isObj = true ∧
    parseJsonResponse "" = errorSentinel "" ∧
    parseJsonResponse "no braces at all" = errorSentinel "no braces at all" ∧
    parseJsonResponse "\x7bunbalanced" = errorSentinel "\x7bunbalanced" :=
  ⟨(extract_total_and_failure_sentinel "").1,
   (extract_total_and_failure_sentinel "").2 (Or.inl (by decide)),
   (extract_total_and_failure_sentinel "no braces at all").2 (Or.inl (by decide)),
   (extract_total_and_failure_sentinel "\x7bunbalanced").2 (Or.inr (Or.inl (by decide)))⟩

/-- C4: the extractor treats exactly the first-opening-brace-to-last-closing-
brace slice as the parse candidate and returns a successful parse as is,
without schema enforcement; on the literal scenario-C text it returns the
mapping with risk_score 3 and risk_level Low. -/
theorem extract_as_is_and_scenario_c :
    (∀ (s : String) (v : Json),
      jsonLoads (String.mk (candidateChars s)) = some v → parseJsonResponse s = v) ∧
    parseJsonResponse
        "Here is the result: \x7b\"risk_score\": 3, \"risk_level\": \"Low\"\x7d Thank you." =
      .obj (.cons "risk_score" (.num 3) (.cons "risk_level" (.str "Low") .nil)) := by
  constructor
  · intro s v h
    unfold parseJsonResponse
    rw [h]
  · decide

/-- Witness for C4 applying its universal part at a concrete noisy response. -/
theorem extract_as_is_witness :
    parseJsonResponse "x\x7b\"a\": 1\x7dy" = .obj (.cons "a" (.num 1) .nil) :=
  extract_as_is_and_scenario_c.1 _ _ (by decide)

/-- C6: the pipeline runs the three stages in order, and the recommendation
stage receives both prior stage results verbatim — the parse of whatever
text the first two stage calls returned, parse-failure sentinels included —
so the pipeline never aborts because an earlier stage failed to parse. The
conclusion fixes the full run: the prompt trace in stage order, with the
third prompt built from both prior StageResults, and the assembled record. -/
theorem pipeline_order_and_verbatim_threading
    (call : String → Except PyErr String) (model nowIso nowStamp : String)
    (app : JsonObj) (store : List (String × Json)) (t1 t2 t3 : String)
    (h1 : call (checkCompletenessPrompt app) = .ok t1)
    (h2 : call (assessRiskPrompt app) = .ok t2)
    (h3 : call (generateRecommendationPrompt (parseJsonResponse t1) (parseJsonResponse t2)) =
      .ok t3) :
    processApplication call model nowIso nowStamp app store =
      (.ok ⟨app.getN "application_id", app.getN "license_type", nowIso,
            parseJsonResponse t1, parseJsonResponse t2, parseJsonResponse t3, model⟩,
       [checkCompletenessPrompt app, assessRiskPrompt app,
        generateRecommendationPrompt (parseJsonResponse t1) (parseJsonResponse t2)],
       store ++ [(saveFilename nowStamp,
         processingResultToJson
           ⟨app.getN "application_id", app.getN "license_type", nowIso,
            parseJsonResponse t1, parseJsonResponse t2, parseJsonResponse t3, model⟩)]) := by
  simp only [processApplication, h1, h2, h3]

/-- Witness for C6 with a reasoning service that answers unparseable text,
so both threaded stage results are parse-failure sentinels. -/
theorem pipeline_order_witness :
    processApplication (fun _ => .ok "x") "gpt-4" "iso" "stamp" .nil [] =
      (.ok ⟨JsonObj.nil.getN "application_id", JsonObj.nil.getN "license_type", "iso",
            parseJsonResponse "x", parseJsonResponse "x", parseJsonResponse "x", "gpt-4"⟩,
       [checkCompletenessPrompt .nil, assessRiskPrompt .nil,
        generateRecommendationPrompt (parseJsonResponse "x") (parseJsonResponse "x")],
       [] ++ [(saveFilename "stamp",
         processingResultToJson
           ⟨JsonObj.nil.getN "application_id", JsonObj.nil.getN "license_type", "iso",
            parseJsonResponse "x", parseJsonResponse "x", parseJsonResponse "x", "gpt-4"⟩)]) :=
  pipeline_order_and_verbatim_threading (fun _ => .ok "x") "gpt-4" "iso" "stamp"
    .nil [] "x" "x" "x" rfl rfl rfl

/-- C7: every run either surfaces a service error having persisted nothing —
the store is returned unchanged — or completes, persisting exactly one record,
the fully assembled ProcessingResult containing all three stage results. -/
theorem pipeline_error_or_persisted
    (call : String → Except PyErr String) (model nowIso nowStamp : String)
    (app : JsonObj) (store : List (String × Json)) :
    (∃ e, (processApplication call model nowIso nowStamp app store).1 = .error e ∧
      (processApplication call model nowIso nowStamp app store).2.2 = store) ∨
    (∃ r, (processApplication call model nowIso nowStamp app store).1 = .ok r ∧
      (processApplication call model nowIso nowStamp app store).2.2 =
        store ++ [(saveFilename nowStamp, processingResultToJson r)]) := by
  rcases h1 : call (checkCompletenessPrompt app) with e | t1
  · exact Or.inl ⟨e, by simp [processApplication, h1], by simp [processApplication, h1]⟩
  · rcases h2 : call (assessRiskPrompt app) with e | t2
    · exact Or.inl ⟨e, by simp [processApplication, h1, h2],
        by simp [processApplication, h1, h2]⟩
    · rcases h3 : call (generateRecommendationPrompt (parseJsonResponse t1)
        (parseJsonResponse t2)) with e | t3
      · exact Or.inl ⟨e, by simp [processApplication, h1, h2, h3],
          by simp [processApplication, h1, h2, h3]⟩
      · exact Or.inr ⟨⟨app.getN "application_id", app.getN "license_type", nowIso,
            parseJsonResponse t1, parseJsonResponse t2, parseJsonResponse t3, model⟩,
          by simp [processApplication, h1, h2, h3],
          by simp [processApplication, h1, h2, h3]⟩

/-- Every extractor result is some dict. -/
theorem parseJsonResponse_isObj (s : String) :
    ∃ kvs, parseJsonResponse s = .obj kvs := by
  unfold parseJsonResponse
  cases hl : jsonLoads (String.mk (candidateChars s)) with
  | some v =>
      have hobj := loads_candidate_isObj hl
      cases v with
      | obj kvs => exact ⟨kvs, rfl⟩
      | null => simp [Json.isObj] at hobj
      | bool b => simp [Json.isObj] at hobj
      | num n => simp [Json.isObj] at hobj
      | str t => simp [Json.isObj] at hobj
      | arr xs => simp [Json.isObj] at hobj
  | none => exact ⟨_, rfl⟩

/-- C2: run_consistency_test with one iteration does not return metrics with
zero variances — it raises StatisticsError, because the consistency_rating
entry of the metrics dict calls statistics.variance on the singleton score
list without the length guard the two variance entries have. The hypothesis
is a reasoning service that always answers; with a failing service the run
raises the service error instead, so no call ever returns metrics. -/
theorem consistency_single_iteration_raises
    (call : String → Except PyErr String) (model nowIso nowStamp : String)
    (store : List (String × Json))
    (hok : ∀ p, ∃ t, call p = .ok t) :
    (runConsistencyTest call model nowIso nowStamp 1 store).1 =
      .error .statisticsError := by
  obtain ⟨t1, h1⟩ := hok (checkCompletenessPrompt consistencyTestCase)
  obtain ⟨t2, h2⟩ := hok (assessRiskPrompt consistencyTestCase)
  obtain ⟨t3, h3⟩ := hok
    (generateRecommendationPrompt (parseJsonResponse t1) (parseJsonResponse t2))
  obtain ⟨kvs1, hk1⟩ := parseJsonResponse_isObj t1
  obtain ⟨kvs2, hk2⟩ := parseJsonResponse_isObj t2
  simp only [runConsistencyTest, consistencyLoop, processApplication, h1, h2, h3]
  simp [List.mapM.loop, hk1, hk2, jsonDictGetD, pyVariance, Bind.bind,
    Except.bind, Pure.pure, Except.pure]

/-- Witness for C2 with the constant service answering a fixed text. -/
theorem consistency_single_iteration_raises_witness :
    (runConsistencyTest (fun _ => .ok "x") "gpt-4" "iso" "stamp" 1 []).1 =
      .error .statisticsError :=
  consistency_single_iteration_raises (fun _ => .ok "x") "gpt-4" "iso" "stamp" []
    (fun _p => ⟨"x", rfl⟩)


/-- C8: on any test case and pipeline result whose expectation labels are
strings and whose score fields, after the defaults of the source (0 for a
missing completeness score, 10 for a missing risk score, the empty string
for a missing risk level), are numeric, the accuracy computed by
_validate_test_result is exactly the spec formula: the percentage of
expectation checks passed, where high passes at a score of at least 80, low
below 60, a risk expectation passes when it matches the reported level, and
a case with no expectations scores the two default checks, completeness at
least 70 and risk at most 5, each worth half. -/
theorem validate_accuracy_formula
    (tc : JsonObj) (res : ProcessingResult) (ec er : Option String)
    (cs rs : Int) (rl : String)
    (hec : tc.lookup? "expected_completeness" = ec.map .str)
    (her : tc.lookup? "expected_risk" = er.map .str)
    (hcs : jsonDictGetD res.completeness_check "completeness_score" (.num 0) = .ok (.num cs))
    (hrl : jsonDictGetD res.risk_assessment "risk_level" (.str "") = .ok (.str rl))
    (hrs : jsonDictGetD res.risk_assessment "risk_score" (.num 10) = .ok (.num rs)) :
    validateTestResult tc res = .ok (specAccuracy ec er cs rs rl) := by
  unfold validateTestResult specAccuracy
  rw [hec, her]
  cases ec with
  | none =>
      cases er with
      | none =>
          simp only [Option.map_none, Bind.bind, Except.bind, Pure.pure, Except.pure, hcs, hrs]
          rcases le_or_lt 70 cs with h1 | h1 <;> rcases le_or_lt rs 5 with h2 | h2
          · simp [jsonGeInt, jsonLeInt, h1, h2]
          · simp [jsonGeInt, jsonLeInt, h1, not_le.mpr h2]
          · simp [jsonGeInt, jsonLeInt, not_le.mpr h1, h2]
          · simp [jsonGeInt, jsonLeInt, not_le.mpr h1, not_le.mpr h2]
      | some e =>
          simp only [Option.map_none, Option.map_some, Bind.bind, Except.bind,
            Pure.pure, Except.pure, hrl, jsonLower]
          by_cases hm : pyLower e = pyLower rl
          · simp [hm]
          · simp [hm]
  | some l =>
      cases er with
      | none =>
          simp only [Option.map_none, Option.map_some, Bind.bind, Except.bind,
            Pure.pure, Except.pure, hcs]
          by_cases hh : l = "high"
          · subst hh
            rcases le_or_lt 80 cs with h1 | h1
            · simp [jsonEqB, jsonGeInt, h1] <;> norm_num
            · simp [jsonEqB, jsonGeInt, not_le.mpr h1] <;> norm_num
          · by_cases hl : l = "low"
            · subst hl
              rcases lt_or_le cs 60 with h1 | h1
              · simp [jsonEqB, jsonLtInt, h1] <;> norm_num
              · simp [jsonEqB, jsonLtInt, not_lt.mpr h1] <;> norm_num
            · simp [jsonEqB, hh, hl] <;> norm_num
      | some e =>
          simp only [Option.map_some, Bind.bind, Except.bind,
            Pure.pure, Except.pure, hcs, hrl, jsonLower]
          by_cases hh : l = "high"
          · subst hh
            rcases le_or_lt 80 cs with h1 | h1 <;> by_cases hm : pyLower e = pyLower rl
            · simp [jsonEqB, jsonGeInt, h1, hm] <;> norm_num
            · simp [jsonEqB, jsonGeInt, h1, hm] <;> norm_num
            · simp [jsonEqB, jsonGeInt, not_le.mpr h1, hm] <;> norm_num
            · simp [jsonEqB, jsonGeInt, not_le.mpr h1, hm] <;> norm_num
          · by_cases hl : l = "low"
            · subst hl
              rcases lt_or_le cs 60 with h1 | h1 <;> by_cases hm : pyLower e = pyLower rl
              · simp [jsonEqB, jsonLtInt, h1, hm] <;> norm_num
              · simp [jsonEqB, jsonLtInt, h1, hm] <;> norm_num
              · simp [jsonEqB, jsonLtInt, not_lt.mpr h1, hm] <;> norm_num
              · simp [jsonEqB, jsonLtInt, not_lt.mpr h1, hm] <;> norm_num
            · by_cases hm : pyLower e = pyLower rl
              · simp [jsonEqB, hh, hl, hm] <;> norm_num
              · simp [jsonEqB, hh, hl, hm] <;> norm_num

/-- Witness for C8: the spec sentence instances — an expected high
completeness with an actual score of 85 scores a full point, with 55 it
scores zero. -/
theorem validate_accuracy_formula_witness :
    validateTestResult (.ofList [("expected_completeness", .str "high")])
      ⟨.null, .null, "", .obj (.ofList [("completeness_score", .num 85)]), .obj .nil, .null, ""⟩ =
      .ok (specAccuracy (some "high") none 85 10 "") ∧
    validateTestResult (.ofList [("expected_completeness", .str "high")])
      ⟨.null, .null, "", .obj (.ofList [("completeness_score", .num 55)]), .obj .nil, .null, ""⟩ =
      .ok (specAccuracy (some "high") none 55 10 "") ∧
    specAccuracy (some "high") none 85 10 "" = 100 ∧
    specAccuracy (some "high") none 55 10 "" = 0 :=
  ⟨validate_accuracy_formula _ _ (some "high") none 85 10 "" rfl rfl rfl rfl rfl,
   validate_accuracy_formula _ _ (some "high") none 55 10 "" rfl rfl rfl rfl rfl,
   by norm_num [specAccuracy], by norm_num [specAccuracy]⟩

/-- Lowercasing preserves emptiness. -/
theorem pyLower_eq_empty_iff {s : String} : pyLower s = "" ↔ s = "" := by
  constructor
  · intro h
    have h2 : s.data.map pyLowerChar = [] := congrArg String.data h
    cases s with
    | mk d =>
        have h3 : d = [] := by simpa using h2
        subst h3
        rfl
  · intro h
    subst h
    rfl

/-- C9: the expected_risk check lowercases both sides, so an expectation of
High matches a reported level of HIGH or high; a result whose risk
assessment has no risk_level key is scored against the empty string and so
matches no nonempty expectation. The test case here carries only the risk
expectation, isolating that check. -/
theorem validate_risk_case_insensitive :
    (∀ (tc : JsonObj) (res : ProcessingResult) (e rl : String),
      tc.lookup? "expected_completeness" = none →
      tc.lookup? "expected_risk" = some (.str e) →
      jsonDictGetD res.risk_assessment "risk_level" (.str "") = .ok (.str rl) →
      validateTestResult tc res = .ok (if pyLower e = pyLower rl then 100 else 0)) ∧
    (∀ (tc : JsonObj) (res : ProcessingResult) (e : String) (kvs : JsonObj),
      tc.lookup? "expected_completeness" = none →
      tc.lookup? "expected_risk" = some (.str e) →
      res.risk_assessment = .obj kvs →
      kvs.lookup? "risk_level" = none →
      e ≠ "" →
      validateTestResult tc res = .ok 0) ∧
    validateTestResult (.ofList [("expected_risk", .str "High")])
      ⟨.null, .null, "", .obj .nil, .obj (.ofList [("risk_level", .str "HIGH")]),
       .null, ""⟩ = .ok 100 ∧
    validateTestResult (.ofList [("expected_risk", .str "High")])
      ⟨.null, .null, "", .obj .nil, .obj (.ofList [("risk_level", .str "high")]),
       .null, ""⟩ = .ok 100 := by
  have main : ∀ (tc : JsonObj) (res : ProcessingResult) (e rl : String),
      tc.lookup? "expected_completeness" = none →
      tc.lookup? "expected_risk" = some (.str e) →
      jsonDictGetD res.risk_assessment "risk_level" (.str "") = .ok (.str rl) →
      validateTestResult tc res = .ok (if pyLower e = pyLower rl then 100 else 0) := by
    intro tc res e rl hec her hrl
    unfold validateTestResult
    rw [hec, her]
    simp only [Bind.bind, Except.bind, Pure.pure, Except.pure, hrl, jsonLower]
    by_cases hm : pyLower e = pyLower rl <;> simp [hm] <;> norm_num
  refine ⟨main, ?_, ?_, ?_⟩
  rotate_left
  · have h := main (.ofList [("expected_risk", .str "High")])
      ⟨.null, .null, "", .obj .nil, .obj (.ofList [("risk_level", .str "HIGH")]),
       .null, ""⟩ "High" "HIGH" rfl rfl rfl
    rw [h, if_pos (show pyLower "High" = pyLower "HIGH" by decide)]
  · have h := main (.ofList [("expected_risk", .str "High")])
      ⟨.null, .null, "", .obj .nil, .obj (.ofList [("risk_level", .str "high")]),
       .null, ""⟩ "High" "high" rfl rfl rfl
    rw [h, if_pos (show pyLower "High" = pyLower "high" by decide)]
  · intro tc res e kvs hec her hra hlk hne
    unfold validateTestResult
    rw [hec, her]
    have hrl : jsonDictGetD res.risk_assessment "risk_level" (.str "") = .ok (.str "") := by
      rw [hra]
      simp [jsonDictGetD, JsonObj.getD, hlk]
    simp only [Bind.bind, Except.bind, Pure.pure, Except.pure, hrl, jsonLower]
    have hm : ¬(pyLower e = pyLower "") := by
      rw [show pyLower "" = "" from rfl]
      exact fun h => hne (pyLower_eq_empty_iff.mp h)
    simp [hm]

/-- Witness for C9 applying its two universal parts at concrete inputs. -/
theorem validate_risk_case_insensitive_witness :
    validateTestResult (.ofList [("expected_risk", .str "Low")])
      ⟨.null, .null, "", .obj .nil, .obj (.ofList [("risk_level", .str "LOW")]),
       .null, ""⟩ = .ok (if pyLower "Low" = pyLower "LOW" then 100 else 0) ∧
    validateTestResult (.ofList [("expected_risk", .str "Low")])
      ⟨.null, .null, "", .obj .nil, .obj .nil, .null, ""⟩ = .ok 0 :=
  ⟨validate_risk_case_insensitive.1 _ _ "Low" "LOW" rfl rfl rfl,
   validate_risk_case_insensitive.2.1 _ _ "Low" .nil rfl rfl rfl rfl (by decide)⟩

/-- C10: in the no-expectation fallback a missing completeness_score key is
scored as 0 and a missing risk_score key as 10, so both default checks fail
and the accuracy is exactly 0; in particular a run whose completeness and
risk stages both returned the parse-failure sentinel scores 0. -/
theorem validate_fallback_sentinel_zero :
    (∀ (tc : JsonObj) (res : ProcessingResult) (ckvs rkvs : JsonObj),
      tc.lookup? "expected_completeness" = none →
      tc.lookup? "expected_risk" = none →
      res.completeness_check = .obj ckvs →
      res.risk_assessment = .obj rkvs →
      ckvs.lookup? "completeness_score" = none →
      rkvs.lookup? "risk_score" = none →
      validateTestResult tc res = .ok 0) ∧
    (∀ (tc : JsonObj) (aid lt fr : Json) (d t1 t2 m : String),
      tc.lookup? "expected_completeness" = none →
      tc.lookup? "expected_risk" = none →
      validateTestResult tc ⟨aid, lt, d, errorSentinel t1, errorSentinel t2, fr, m⟩ =
        .ok 0) := by
  constructor
  · intro tc res ckvs rkvs hec her hcc hra hck hrk
    unfold validateTestResult
    rw [hec, her]
    have hcs : jsonDictGetD res.completeness_check "completeness_score" (.num 0) =
        .ok (.num 0) := by
      rw [hcc]; simp [jsonDictGetD, JsonObj.getD, hck]
    have hrs : jsonDictGetD res.risk_assessment "risk_score" (.num 10) =
        .ok (.num 10) := by
      rw [hra]; simp [jsonDictGetD, JsonObj.getD, hrk]
    simp only [Bind.bind, Except.bind, Pure.pure, Except.pure, hcs, hrs]
    simp [jsonGeInt, jsonLeInt]
  · intro tc aid lt fr d t1 t2 m hec her
    unfold validateTestResult
    rw [hec, her]
    simp only [Bind.bind, Except.bind, Pure.pure, Except.pure, errorSentinel]
    simp [jsonDictGetD, JsonObj.getD, JsonObj.lookup?, jsonGeInt, jsonLeInt]

/-- Witness for C10 at an empty test case and a sentinel-bearing result. -/
theorem validate_fallback_sentinel_zero_witness :
    validateTestResult .nil
      ⟨.null, .null, "", errorSentinel "raw a", errorSentinel "raw b", .null, ""⟩ =
      .ok 0 :=
  validate_fallback_sentinel_zero.2 .nil .null .null .null "" "raw a" "raw b" "" rfl rfl

set_option maxRecDepth 10000 in
/-- Counterexample to C3: two ApplicationRecords that are equal as Python
mappings (same keys, same values, different insertion order) produce
different stage-1 prompts, because json.dumps is called without sorted keys
and serializes entries in insertion order. -/
theorem prompt_not_order_invariant_cex :
    jsonEqB (.obj (.cons "a" (.num 1) (.cons "b" (.num 2) .nil)))
            (.obj (.cons "b" (.num 2) (.cons "a" (.num 1) .nil))) = true ∧
    checkCompletenessPrompt (.cons "a" (.num 1) (.cons "b" (.num 2) .nil)) ≠
      checkCompletenessPrompt (.cons "b" (.num 2) (.cons "a" (.num 1) .nil)) := by
  constructor
  · decide
  · decide

/-- C3 (amended): the prompt construction is deterministic in the serialized
form of the record — two records with the same json.dumps(_, indent=2) text
and the same license_type binding produce byte-identical completeness and
risk prompts — but only Python-mapping equality is not enough, since
json.dumps follows key insertion order rather than a sorted key order. -/
theorem prompt_deterministic_in_serialization
    (r1 r2 : JsonObj)
    (hdump : jsonDumps (.obj r1) = jsonDumps (.obj r2))
    (hlic : r1.getD "license_type" (.str "General") =
      r2.getD "license_type" (.str "General")) :
    checkCompletenessPrompt r1 = checkCompletenessPrompt r2 ∧
    assessRiskPrompt r1 = assessRiskPrompt r2 := by
  unfold checkCompletenessPrompt assessRiskPrompt
  rw [hdump, hlic]
  exact ⟨rfl, rfl⟩

/-- Witness for C3 (amended) on two syntactically different builds of the
same ordered record. -/
theorem prompt_deterministic_in_serialization_witness :
    checkCompletenessPrompt (.ofList [("a", .num 1)]) =
      checkCompletenessPrompt (.cons "a" (.num 1) .nil) ∧
    assessRiskPrompt (.ofList [("a", .num 1)]) =
      assessRiskPrompt (.cons "a" (.num 1) .nil) :=
  prompt_deterministic_in_serialization (.ofList [("a", .num 1)])
    (.cons "a" (.num 1) .nil) rfl rfl

section RoundTripDefs

/-- Whether a dict has a key. -/
def JsonObj.hasKey (kvs : JsonObj) (k : String) : Bool :=
  (kvs.lookup? k).isSome

/-- Concatenation of two association lists. -/
def JsonObj.append : JsonObj → JsonObj → JsonObj
  | .nil, b => b
  | .cons k v kvs, b => .cons k v (kvs.append b)

mutual

/-- Well-formedness of a value as the image of a Python object: every dict
in it has pairwise distinct keys, which every dict built by Python has. -/
def Json.wfB : Json → Bool
  | .null => true
  | .bool _ => true
  | .num _ => true
  | .str _ => true
  | .arr xs => JsonList.wfB xs
  | .obj kvs => JsonObj.wfB kvs

/-- Well-formedness of every element of a list. -/
def JsonList.wfB : JsonList → Bool
  | .nil => true
  | .cons x xs => Json.wfB x && JsonList.wfB xs

/-- Distinct keys and well-formed values. -/
def JsonObj.wfB : JsonObj → Bool
  | .nil => true
  | .cons k v kvs => !(JsonObj.hasKey kvs k) && Json.wfB v && JsonObj.wfB kvs

end

end RoundTripDefs

section ObjLemmas

/-- The head key is present. -/
theorem JsonObj.hasKey_cons_self {k : String} {v : Json} {kvs : JsonObj} :
    (JsonObj.cons k v kvs).hasKey k = true := by
  simp [JsonObj.hasKey, JsonObj.lookup?]

/-- Key membership in a cons. -/
theorem JsonObj.hasKey_cons_iff {k key : String} {v : Json} {kvs : JsonObj} :
    (JsonObj.cons k v kvs).hasKey key = true ↔ k = key ∨ kvs.hasKey key = true := by
  by_cases h : k = key <;> simp [JsonObj.hasKey, JsonObj.lookup?, h]

/-- Key membership in a concatenation. -/
theorem JsonObj.hasKey_append_iff {key : String} : ∀ (a b : JsonObj),
    (a.append b).hasKey key = true ↔ a.hasKey key = true ∨ b.hasKey key = true
  | .nil, b => by simp [JsonObj.append, JsonObj.hasKey, JsonObj.lookup?]
  | .cons k v kvs, b => by
      by_cases h : k = key <;>
        simp [JsonObj.append, JsonObj.hasKey_cons_iff, h,
          JsonObj.hasKey_append_iff kvs b]

/-- Appending the empty dict. -/
theorem JsonObj.append_nil : ∀ (a : JsonObj), a.append .nil = a
  | .nil => rfl
  | .cons k v kvs => by simp [JsonObj.append, JsonObj.append_nil kvs]

/-- Concatenation reassociates over a singleton. -/
theorem JsonObj.append_cons : ∀ (acc : JsonObj) (k : String) (v : Json) (kvs : JsonObj),
    (acc.append (.cons k v .nil)).append kvs = acc.append (.cons k v kvs)
  | .nil, _, _, _ => rfl
  | .cons k2 v2 rest, k, v, kvs => by
      simp [JsonObj.append, JsonObj.append_cons rest k v kvs]

/-- Item assignment of an absent key appends it at the end. -/
theorem JsonObj.setItem_eq_append : ∀ {kvs : JsonObj} {k : String} {v : Json},
    kvs.hasKey k = false → kvs.setItem k v = kvs.append (.cons k v .nil)
  | .nil, _, _, _ => rfl
  | .cons k2 v2 rest, k, v, h => by
      by_cases hk : k2 = k
      · subst hk
        simp [JsonObj.hasKey, JsonObj.lookup?] at h
      · have hrest : rest.hasKey k = false := by
          by_cases hr : rest.hasKey k = true
          · exfalso
            have h2 : (JsonObj.cons k2 v2 rest).hasKey k = true :=
              JsonObj.hasKey_cons_iff.mpr (Or.inr hr)
            rw [h2] at h
            cases h
          · simpa using hr
        simp [JsonObj.setItem, hk, JsonObj.append, JsonObj.setItem_eq_append hrest]

end ObjLemmas

section EscapeLemmas

/-- Reading back one emitted hexadecimal digit. -/
theorem hexVal_hexDigit {m : Nat} (h : m < 16) : hexVal (hexDigit m) = some m := by
  by_cases h10 : m < 10
  · have ht : (hexDigit m).toNat = 48 + m := by
      unfold hexDigit
      rw [if_pos h10]
      exact char_toNat_ofNat (Or.inl (by omega))
    unfold hexVal
    rw [ht, if_pos ⟨by omega, by omega⟩]
    congr 1
    omega
  · have ht : (hexDigit m).toNat = 97 + m - 10 := by
      unfold hexDigit
      rw [if_neg h10]
      exact char_toNat_ofNat (Or.inl (by omega))
    unfold hexVal
    rw [ht, if_neg (by omega), if_pos ⟨by omega, by omega⟩]
    congr 1
    omega

/-- Reading back four emitted hexadecimal digits. -/
theorem hexVal4_hex4 {n : Nat} (h : n < 65536) :
    hexVal4 (hexDigit (n / 4096 % 16)) (hexDigit (n / 256 % 16))
      (hexDigit (n / 16 % 16)) (hexDigit (n % 16)) = some n := by
  unfold hexVal4
  rw [hexVal_hexDigit (by omega), hexVal_hexDigit (by omega),
    hexVal_hexDigit (by omega), hexVal_hexDigit (by omega)]
  show some _ = some n
  congr 1
  omega

/-- One parser step: a closing quote ends the string. -/
theorem parseStringBody_quote (fuel : Nat) (acc rest : List Char) :
    parseStringBody (fuel + 1) acc ('"' :: rest) = some (String.mk acc.reverse, rest) := rfl

/-- One parser step: a backslash defers to the escape reader. -/
theorem parseStringBody_backslash (fuel : Nat) (acc rest : List Char) :
    parseStringBody (fuel + 1) acc ('\\' :: rest) = parseEscape fuel acc rest := rfl

/-- One parser step: a plain character is taken literally. -/
theorem parseStringBody_lit {c : Char} (fuel : Nat) (acc rest : List Char)
    (h1 : c ≠ '"') (h2 : c ≠ '\\') (h3 : ¬(c.toNat < 32)) :
    parseStringBody (fuel + 1) acc (c :: rest) = parseStringBody fuel (c :: acc) rest := by
  rw [show parseStringBody (fuel + 1) acc (c :: rest) =
      (if c = '"' then some (String.mk acc.reverse, rest)
       else if c = '\\' then parseEscape fuel acc rest
       else if c.toNat < 32 then none
       else parseStringBody fuel (c :: acc) rest) from rfl,
    if_neg h1, if_neg h2, if_neg h3]

/-- The backslash-u escape reader on four digits encoding a value outside
the surrogate range. -/
theorem parseEscape_u_bmp {d1 d2 d3 d4 : Char} {u : Nat} (fuel : Nat) (acc rest2 : List Char)
    (hu : hexVal4 d1 d2 d3 d4 = some u)
    (hA : ¬(55296 ≤ u ∧ u < 56320)) (hB : ¬(56320 ≤ u ∧ u < 57344)) :
    parseEscape (fuel + 2) acc ('u' :: d1 :: d2 :: d3 :: d4 :: rest2) =
      parseStringBody fuel (Char.ofNat u :: acc) rest2 := by
  rw [show parseEscape (fuel + 2) acc ('u' :: d1 :: d2 :: d3 :: d4 :: rest2) =
      parseUEscape (fuel + 1) acc (d1 :: d2 :: d3 :: d4 :: rest2) from rfl]
  rw [show parseUEscape (fuel + 1) acc (d1 :: d2 :: d3 :: d4 :: rest2) =
      (hexVal4 d1 d2 d3 d4).bind (fun u =>
        if 55296 ≤ u ∧ u < 56320 then parseLowSurrogate fuel acc u rest2
        else if 56320 ≤ u ∧ u < 57344 then none
        else parseStringBody fuel (Char.ofNat u :: acc) rest2) from rfl, hu]
  simp only [Option.some_bind]
  rw [if_neg hA, if_neg hB]

/-- The backslash-u escape reader on a high surrogate followed by a low
surrogate, recombined into one code point. -/
theorem parseEscape_u_pair {d1 d2 d3 d4 g1 g2 g3 g4 : Char} {u u2 : Nat}
    (fuel : Nat) (acc rest3 : List Char)
    (hu : hexVal4 d1 d2 d3 d4 = some u)
    (hA : 55296 ≤ u ∧ u < 56320)
    (hu2 : hexVal4 g1 g2 g3 g4 = some u2)
    (hB : 56320 ≤ u2 ∧ u2 < 57344) :
    parseEscape (fuel + 3) acc
        ('u' :: d1 :: d2 :: d3 :: d4 :: '\\' :: 'u' :: g1 :: g2 :: g3 :: g4 :: rest3) =
      parseStringBody fuel
        (Char.ofNat (65536 + (u - 55296) * 1024 + (u2 - 56320)) :: acc) rest3 := by
  rw [show parseEscape (fuel + 3) acc
      ('u' :: d1 :: d2 :: d3 :: d4 :: '\\' :: 'u' :: g1 :: g2 :: g3 :: g4 :: rest3) =
      (hexVal4 d1 d2 d3 d4).bind (fun u =>
        if 55296 ≤ u ∧ u < 56320 then
          parseLowSurrogate (fuel + 1) acc u
            ('\\' :: 'u' :: g1 :: g2 :: g3 :: g4 :: rest3)
        else if 56320 ≤ u ∧ u < 57344 then none
        else parseStringBody (fuel + 1) (Char.ofNat u :: acc)
          ('\\' :: 'u' :: g1 :: g2 :: g3 :: g4 :: rest3)) from rfl, hu]
  simp only [Option.some_bind]
  rw [if_pos hA]
  rw [show parseLowSurrogate (fuel + 1) acc u
      ('\\' :: 'u' :: g1 :: g2 :: g3 :: g4 :: rest3) =
      (if ('\\' : Char) = '\\' ∧ ('u' : Char) = 'u' then
        (hexVal4 g1 g2 g3 g4).bind fun u2 =>
          if 56320 ≤ u2 ∧ u2 < 57344 then
            parseStringBody fuel
              (Char.ofNat (65536 + (u - 55296) * 1024 + (u2 - 56320)) :: acc) rest3
          else none
      else none) from rfl, if_pos ⟨rfl, rfl⟩, hu2]
  simp only [Option.some_bind]
  rw [if_pos hB]

/-- Reading a string body back from its escaped form: the inverse direction
of escapeChar, one character class at a time, with fuel at least one more
than the remaining escaped length. -/
theorem parseStringBody_escape : ∀ (l acc rest : List Char) (fuel : Nat),
    (l.flatMap escapeChar).length < fuel →
    parseStringBody fuel acc (l.flatMap escapeChar ++ '"' :: rest) =
      some (String.mk (acc.reverse ++ l), rest)
  | [], acc, rest, fuel, hf => by
      obtain ⟨f, rfl⟩ : ∃ k, fuel = k + 1 := ⟨fuel - 1, by omega⟩
      simp [parseStringBody_quote]
  | c :: l, acc, rest, fuel, hf => by
      have ih := parseStringBody_escape l
      have hf2 : (escapeChar c).length + (l.flatMap escapeChar).length < fuel := by
        rw [List.flatMap_cons, List.length_append] at hf
        exact hf
      clear hf
      simp only [List.flatMap_cons, List.append_assoc]
      by_cases h1 : c = '"'
      · subst h1
        have hlen : (escapeChar '"').length = 2 := rfl
        obtain ⟨f, rfl⟩ : ∃ k, fuel = k + 2 := ⟨fuel - 2, by omega⟩
        rw [show escapeChar '"' = ['\\', '"'] from rfl]
        simp only [List.cons_append, List.nil_append]
        rw [parseStringBody_backslash, show parseEscape (f + 1) acc
            ('"' :: (l.flatMap escapeChar ++ '"' :: rest)) =
          parseStringBody f ('"' :: acc) (l.flatMap escapeChar ++ '"' :: rest) from rfl,
          ih _ _ f (by omega)]
        simp
      · by_cases h2 : c = '\\'
        · subst h2
          have hlen : (escapeChar '\\').length = 2 := rfl
          obtain ⟨f, rfl⟩ : ∃ k, fuel = k + 2 := ⟨fuel - 2, by omega⟩
          rw [show escapeChar '\\' = ['\\', '\\'] from rfl]
          simp only [List.cons_append, List.nil_append]
          rw [parseStringBody_backslash, show parseEscape (f + 1) acc
              ('\\' :: (l.flatMap escapeChar ++ '"' :: rest)) =
            parseStringBody f ('\\' :: acc) (l.flatMap escapeChar ++ '"' :: rest) from rfl,
            ih _ _ f (by omega)]
          simp
        · by_cases h3 : c = '\x08'
          · subst h3
            have hlen : (escapeChar '\x08').length = 2 := rfl
            obtain ⟨f, rfl⟩ : ∃ k, fuel = k + 2 := ⟨fuel - 2, by omega⟩
            rw [show escapeChar '\x08' = ['\\', 'b'] from rfl]
            simp only [List.cons_append, List.nil_append]
            rw [parseStringBody_backslash, show parseEscape (f + 1) acc
                ('b' :: (l.flatMap escapeChar ++ '"' :: rest)) =
              parseStringBody f ('\x08' :: acc) (l.flatMap escapeChar ++ '"' :: rest) from rfl,
              ih _ _ f (by omega)]
            simp
          · by_cases h4 : c = '\x0c'
            · subst h4
              have hlen : (escapeChar '\x0c').length = 2 := rfl
              obtain ⟨f, rfl⟩ : ∃ k, fuel = k + 2 := ⟨fuel - 2, by omega⟩
              rw [show escapeChar '\x0c' = ['\\', 'f'] from rfl]
              simp only [List.cons_append, List.nil_append]
              rw [parseStringBody_backslash, show parseEscape (f + 1) acc
                  ('f' :: (l.flatMap escapeChar ++ '"' :: rest)) =
                parseStringBody f ('\x0c' :: acc) (l.flatMap escapeChar ++ '"' :: rest) from rfl,
                ih _ _ f (by omega)]
              simp
            · by_cases h5 : c = '\n'
              · subst h5
                have hlen : (escapeChar '\n').length = 2 := rfl
                obtain ⟨f, rfl⟩ : ∃ k, fuel = k + 2 := ⟨fuel - 2, by omega⟩
                rw [show escapeChar '\n' = ['\\', 'n'] from rfl]
                simp only [List.cons_append, List.nil_append]
                rw [parseStringBody_backslash, show parseEscape (f + 1) acc
                    ('n' :: (l.flatMap escapeChar ++ '"' :: rest)) =
                  parseStringBody f ('\n' :: acc) (l.flatMap escapeChar ++ '"' :: rest) from rfl,
                  ih _ _ f (by omega)]
                simp
              · by_cases h6 : c = '\r'
                · subst h6
                  have hlen : (escapeChar '\r').length = 2 := rfl
                  obtain ⟨f, rfl⟩ : ∃ k, fuel = k + 2 := ⟨fuel - 2, by omega⟩
                  rw [show escapeChar '\r' = ['\\', 'r'] from rfl]
                  simp only [List.cons_append, List.nil_append]
                  rw [parseStringBody_backslash, show parseEscape (f + 1) acc
                      ('r' :: (l.flatMap escapeChar ++ '"' :: rest)) =
                    parseStringBody f ('\r' :: acc) (l.flatMap escapeChar ++ '"' :: rest) from rfl,
                    ih _ _ f (by omega)]
                  simp
                · by_cases h7 : c = '\t'
                  · subst h7
                    have hlen : (escapeChar '\t').length = 2 := rfl
                    obtain ⟨f, rfl⟩ : ∃ k, fuel = k + 2 := ⟨fuel - 2, by omega⟩
                    rw [show escapeChar '\t' = ['\\', 't'] from rfl]
                    simp only [List.cons_append, List.nil_append]
                    rw [parseStringBody_backslash, show parseEscape (f + 1) acc
                        ('t' :: (l.flatMap escapeChar ++ '"' :: rest)) =
                      parseStringBody f ('\t' :: acc) (l.flatMap escapeChar ++ '"' :: rest) from rfl,
                      ih _ _ f (by omega)]
                    simp
                  · by_cases h8 : 32 ≤ c.toNat ∧ c.toNat ≤ 126
                    · have hec : escapeChar c = [c] := by
                        unfold escapeChar
                        rw [if_neg h1, if_neg h2, if_neg h3, if_neg h4, if_neg h5,
                          if_neg h6, if_neg h7, if_pos h8]
                      have hlen : (escapeChar c).length = 1 := by rw [hec]; rfl
                      obtain ⟨f, rfl⟩ : ∃ k, fuel = k + 1 := ⟨fuel - 1, by omega⟩
                      rw [hec]
                      simp only [List.cons_append, List.nil_append]
                      rw [parseStringBody_lit f acc _ h1 h2 (by omega),
                        ih _ _ f (by omega)]
                      simp
                    · by_cases h9 : c.toNat < 65536
                      · have hval := char_toNat_valid c
                        have hec : escapeChar c = '\\' :: 'u' :: hex4 c.toNat := by
                          unfold escapeChar
                          rw [if_neg h1, if_neg h2, if_neg h3, if_neg h4, if_neg h5,
                            if_neg h6, if_neg h7, if_neg h8, if_pos h9]
                        have hlen : (escapeChar c).length = 6 := by rw [hec]; rfl
                        obtain ⟨f, rfl⟩ : ∃ k, fuel = k + 3 := ⟨fuel - 3, by omega⟩
                        rw [hec]
                        simp only [hex4, List.cons_append, List.nil_append]
                        rw [parseStringBody_backslash,
                          parseEscape_u_bmp f acc _ (hexVal4_hex4 h9) (by omega) (by omega),
                          Char.ofNat_toNat, ih _ _ f (by omega)]
                        simp
                      · have hval := char_toNat_valid c
                        have hup : c.toNat < 1114112 := by omega
                        have hec : escapeChar c =
                            '\\' :: 'u' :: hex4 (55296 + (c.toNat - 65536) / 1024) ++
                            ('\\' :: 'u' :: hex4 (56320 + (c.toNat - 65536) % 1024)) := by
                          unfold escapeChar
                          rw [if_neg h1, if_neg h2, if_neg h3, if_neg h4, if_neg h5,
                            if_neg h6, if_neg h7, if_neg h8, if_neg h9]
                        have hlen : (escapeChar c).length = 12 := by rw [hec]; rfl
                        obtain ⟨f, rfl⟩ : ∃ k, fuel = k + 4 := ⟨fuel - 4, by omega⟩
                        rw [hec]
                        simp only [hex4, List.cons_append, List.nil_append,
                          List.append_assoc]
                        rw [parseStringBody_backslash,
                          parseEscape_u_pair f acc _ (hexVal4_hex4 (by omega))
                            ⟨by omega, by omega⟩ (hexVal4_hex4 (by omega))
                            ⟨by omega, by omega⟩]
                        rw [show 65536 + (55296 + (c.toNat - 65536) / 1024 - 55296) * 1024 +
                            (56320 + (c.toNat - 65536) % 1024 - 56320) = c.toNat by omega,
                          Char.ofNat_toNat, ih _ _ f (by omega)]
                        simp

end EscapeLemmas

section NumberLemmas

/-- Digits render to digit characters. -/
theorem natToCharsF_all_digits : ∀ (fuel n : Nat), n < fuel →
    ∀ c ∈ natToCharsF fuel n, c.isDigit = true
  | 0, n, hn => by omega
  | fuel + 1, n, hn => by
      intro c hc
      by_cases h : n < 10
      · rw [natToCharsF, if_pos h] at hc
        simp at hc
        subst hc
        rw [isDigit_iff_toNat, char_toNat_ofNat (Or.inl (by omega))]
        omega
      · rw [natToCharsF, if_neg h] at hc
        rcases List.mem_append.mp hc with hc | hc
        · exact natToCharsF_all_digits fuel (n / 10)
            (by have := Nat.div_lt_self (show 0 < n by omega) (show 1 < 10 by omega); omega)
            c hc
        · simp at hc
          subst hc
          rw [isDigit_iff_toNat, char_toNat_ofNat (Or.inl (by omega))]
          have := Nat.mod_lt n (show 0 < 10 by omega)
          omega

/-- A decimal rendering with fuel is never empty. -/
theorem natToCharsF_ne_nil : ∀ (fuel n : Nat), n < fuel → natToCharsF fuel n ≠ []
  | 0, n, hn => by omega
  | fuel + 1, n, hn => by
      by_cases h : n < 10
      · rw [natToCharsF, if_pos h]
        simp
      · rw [natToCharsF, if_neg h]
        simp

/-- The leading digit of a nonzero number is not zero. -/
theorem natToCharsF_head_ne_zero : ∀ (fuel n : Nat), n < fuel → n ≠ 0 →
    ∀ c t, natToCharsF fuel n = c :: t → c ≠ '0'
  | 0, n, hn, _, _, _, _ => by omega
  | fuel + 1, n, hn, hm, c, t, hct => by
      by_cases h : n < 10
      · rw [natToCharsF, if_pos h] at hct
        obtain ⟨hc, -⟩ := List.cons.inj hct
        subst hc
        intro hzero
        have h2 := congrArg Char.toNat hzero
        rw [char_toNat_ofNat (Or.inl (by omega))] at h2
        have h0 : ('0' : Char).toNat = 48 := rfl
        omega
      · rw [natToCharsF, if_neg h] at hct
        obtain ⟨c2, t2, he⟩ : ∃ c2 t2, natToCharsF fuel (n / 10) = c2 :: t2 := by
          cases hne : natToCharsF fuel (n / 10) with
          | nil =>
              exact absurd hne (natToCharsF_ne_nil fuel (n / 10)
                (by have := Nat.div_lt_self (show 0 < n by omega)
                      (show 1 < 10 by omega); omega))
          | cons x xs => exact ⟨x, xs, rfl⟩
        rw [he] at hct
        simp only [List.cons_append] at hct
        obtain ⟨hc, -⟩ := List.cons.inj hct
        subst hc
        exact natToCharsF_head_ne_zero fuel (n / 10)
          (by have := Nat.div_lt_self (show 0 < n by omega) (show 1 < 10 by omega); omega)
          (by omega) c2 t2 he

/-- Folding the digit accumulator over a decimal rendering. -/
theorem natToCharsF_foldl : ∀ (fuel n : Nat), n < fuel → ∀ (acc : Nat),
    (natToCharsF fuel n).foldl (fun a c => a * 10 + (c.toNat - 48)) acc =
      acc * 10 ^ (natToCharsF fuel n).length + n
  | 0, n, hn, _ => by omega
  | fuel + 1, n, hn, acc => by
      by_cases h : n < 10
      · rw [natToCharsF, if_pos h]
        simp [char_toNat_ofNat (Or.inl (show 48 + n < 55296 by omega))]
      · have hdiv : n / 10 < fuel := by
          have := Nat.div_lt_self (show 0 < n by omega) (show 1 < 10 by omega)
          omega
        rw [natToCharsF, if_neg h]
        rw [List.foldl_append, natToCharsF_foldl fuel (n / 10) hdiv acc]
        simp only [List.foldl_cons, List.foldl_nil, List.length_append, List.length_cons,
          List.length_nil]
        rw [char_toNat_ofNat (Or.inl (show 48 + n % 10 < 55296 by
          have := Nat.mod_lt n (show 0 < 10 by omega)
          omega))]
        rw [pow_succ]
        have := Nat.div_add_mod n 10
        ring_nf
        omega

/-- The greedy digit reader consumes exactly a run of digits. -/
theorem parseDigitsGo_digits : ∀ (ds : List Char) (acc : Nat) (rest : List Char),
    (∀ c ∈ ds, c.isDigit = true) →
    (∀ c t, rest = c :: t → c.isDigit = false) →
    parseDigitsGo acc (ds ++ rest) =
      (ds.foldl (fun a c => a * 10 + (c.toNat - 48)) acc, rest)
  | [], acc, rest, _, hrest => by
      cases rest with
      | nil => rfl
      | cons c t =>
          simp only [List.nil_append, List.foldl_nil, parseDigitsGo]
          rw [if_neg (by simp [hrest c t rfl])]
  | d :: ds, acc, rest, hds, hrest => by
      simp only [List.cons_append, parseDigitsGo, List.foldl_cons]
      rw [if_pos (hds d (by simp))]
      exact parseDigitsGo_digits ds _ rest (fun c hc => hds c (by simp [hc])) hrest

/-- The unsigned numeral reader reads back a decimal rendering. -/
theorem parseUIntPart_natToChars (m : Nat) (rest : List Char)
    (hrest : ∀ c t, rest = c :: t → c.isDigit = false) :
    parseUIntPart (natToChars m ++ rest) = some (m, rest) := by
  by_cases h : m = 0
  · subst h
    have h0 : natToChars 0 = ['0'] := by decide
    rw [h0]
    rfl
  · have hm : m < m + 1 := by omega
    obtain ⟨c, t, he⟩ : ∃ c t, natToChars m = c :: t := by
      cases hne : natToChars m with
      | nil => exact absurd hne (natToCharsF_ne_nil (m + 1) m hm)
      | cons x xs => exact ⟨x, xs, rfl⟩
    rw [he]
    simp only [List.cons_append, parseUIntPart]
    rw [if_neg (natToCharsF_head_ne_zero (m + 1) m hm h c t he),
      if_pos (natToCharsF_all_digits (m + 1) m hm c (by
        show c ∈ natToChars m
        simp [he]))]
    rw [parseDigitsGo_digits t (c.toNat - 48) rest
      (fun x hx => natToCharsF_all_digits (m + 1) m hm x (by
        show x ∈ natToChars m
        simp [he, hx])) hrest]
    have hfold := natToCharsF_foldl (m + 1) m hm 0
    rw [show natToCharsF (m + 1) m = natToChars m from rfl, he, List.foldl_cons] at hfold
    simp only [zero_mul, zero_add] at hfold
    rw [hfold]

end NumberLemmas

section DumpsShapeLemmas

/-- What may legally follow an integer numeral without extending it: the
head, if any, is not a digit and not a fraction or exponent mark. -/
def numFollowerOk : List Char → Prop
  | [] => True
  | c :: _ => c.isDigit = false ∧ c ≠ '.' ∧ c ≠ 'e' ∧ c ≠ 'E'

/-- A numeral follower is in particular not a digit. -/
theorem numFollowerOk_not_digit {rest : List Char} (h : numFollowerOk rest) :
    ∀ c t, rest = c :: t → c.isDigit = false := by
  intro c t hct
  subst hct
  exact h.1

/-- A numeral follower does not start a fraction or exponent. -/
theorem floatFollows_of_numFollowerOk {rest : List Char} (h : numFollowerOk rest) :
    floatFollows rest = false := by
  cases rest with
  | nil => rfl
  | cons c t =>
      obtain ⟨-, h1, h2, h3⟩ := h
      simp [floatFollows, h1, h2, h3]

/-- The signed numeral reader reads back a decimal rendering. -/
theorem parseNumber_intToChars (n : Int) (rest : List Char) (hrest : numFollowerOk rest) :
    parseNumber (intToChars n ++ rest) = some (n, rest) := by
  unfold intToChars
  have hff := floatFollows_of_numFollowerOk hrest
  by_cases hneg : n < 0
  · rw [if_pos hneg]
    have hui := parseUIntPart_natToChars n.natAbs rest (numFollowerOk_not_digit hrest)
    simp only [List.cons_append]
    simp [parseNumber, hui, hff]
    rw [abs_of_neg hneg]
    ring
  · rw [if_neg hneg]
    have hui := parseUIntPart_natToChars n.toNat rest (numFollowerOk_not_digit hrest)
    obtain ⟨c, t, he⟩ : ∃ c t, natToChars n.toNat = c :: t := by
      cases hne : natToChars n.toNat with
      | nil => exact absurd hne (natToCharsF_ne_nil (n.toNat + 1) n.toNat (by omega))
      | cons x xs => exact ⟨x, xs, rfl⟩
    have hdig : c.isDigit = true :=
      natToCharsF_all_digits (n.toNat + 1) n.toNat (by omega) c (by
        show c ∈ natToChars n.toNat
        simp [he])
    have hc : ¬(c = '-') := by
      intro hc
      subst hc
      rw [isDigit_iff_toNat] at hdig
      have h45 : ('-' : Char).toNat = 45 := rfl
      omega
    rw [he] at hui ⊢
    simp only [List.cons_append] at hui ⊢
    simp [parseNumber, hc, hui, hff]
    omega

/-- Every serialized value starts with a non-whitespace character. -/
theorem dumpsVal_head (lvl : Nat) (v : Json) :
    ∃ c t, dumpsVal lvl v = c :: t ∧ isWsChar c = false := by
  cases v with
  | null => exact ⟨'n', _, rfl, by decide⟩
  | bool b => cases b with
      | true => exact ⟨'t', _, rfl, by decide⟩
      | false => exact ⟨'f', _, rfl, by decide⟩
  | num n =>
      show ∃ c t, intToChars n = c :: t ∧ isWsChar c = false
      unfold intToChars
      by_cases hneg : n < 0
      · rw [if_pos hneg]
        exact ⟨'-', _, rfl, by decide⟩
      · rw [if_neg hneg]
        obtain ⟨c, t, he⟩ : ∃ c t, natToChars n.toNat = c :: t := by
          cases hne : natToChars n.toNat with
          | nil => exact absurd hne (natToCharsF_ne_nil (n.toNat + 1) n.toNat (by omega))
          | cons x xs => exact ⟨x, xs, rfl⟩
        have hdig : c.isDigit = true :=
          natToCharsF_all_digits (n.toNat + 1) n.toNat (by omega) c (by
            show c ∈ natToChars n.toNat
            simp [he])
        refine ⟨c, t, he, ?_⟩
        rw [isDigit_iff_toNat] at hdig
        by_cases hws : isWsChar c = true
        · rw [isWsChar_iff_toNat] at hws
          omega
        · simpa using hws
  | str s => exact ⟨'"', _, rfl, by decide⟩
  | arr xs => cases xs with
      | nil => exact ⟨'[', _, rfl, by decide⟩
      | cons x xs => exact ⟨'[', _, rfl, by decide⟩
  | obj kvs => cases kvs with
      | nil => exact ⟨'{', _, rfl, by decide⟩
      | cons k v kvs => exact ⟨'{', _, rfl, by decide⟩

/-- Skipping whitespace in front of a serialized value is the identity. -/
theorem skipWs_dumpsVal (lvl : Nat) (v : Json) (rest : List Char) :
    skipWs (dumpsVal lvl v ++ rest) = dumpsVal lvl v ++ rest := by
  obtain ⟨c, t, he, hws⟩ := dumpsVal_head lvl v
  rw [he, List.cons_append, skipWs_cons_of_not_ws hws]

end DumpsShapeLemmas

section RoundTripSteps

/-- Rebuilding a string from its character data gives the string back. -/
theorem stringMk_data : ∀ (s : String), String.mk s.data = s
  | ⟨_⟩ => rfl

/-- A string literal prepended to a tail, in cons-headed form. -/
theorem escapeString_cons (s : String) (cs : List Char) :
    escapeString s ++ cs = '"' :: (s.data.flatMap escapeChar ++ '"' :: cs) := by
  simp [escapeString]

/-- Skipping whitespace in front of a string literal is the identity. -/
theorem skipWs_escapeString (s : String) (cs : List Char) :
    skipWs (escapeString s ++ cs) = escapeString s ++ cs := by
  rw [escapeString_cons, skipWs_cons_of_not_ws (by decide)]

/-- A space at the head is skipped. -/
theorem skipWs_space (cs : List Char) : skipWs (' ' :: cs) = skipWs cs := by
  simp [skipWs, isWsChar]

/-- One value-parser step, with the head character exposed. -/
theorem parseValue_cons (f : Nat) (c : Char) (rest : List Char) :
    parseValue (f + 1) (c :: rest) =
      (if c = '"' then
        (parseStringBody f [] rest).map fun p => (Json.str p.1, p.2)
      else if c = '{' then
        match skipWs rest with
        | '}' :: rest2 => some (.obj .nil, rest2)
        | cs2 => (parseObjItems f .nil cs2).map fun p => (Json.obj p.1, p.2)
      else if c = '[' then
        match skipWs rest with
        | ']' :: rest2 => some (.arr .nil, rest2)
        | cs2 => (parseArrItems f cs2).map fun p => (Json.arr p.1, p.2)
      else if c = 't' then
        match rest with
        | 'r' :: 'u' :: 'e' :: r => some (.bool true, r)
        | _ => none
      else if c = 'f' then
        match rest with
        | 'a' :: 'l' :: 's' :: 'e' :: r => some (.bool false, r)
        | _ => none
      else if c = 'n' then
        match rest with
        | 'u' :: 'l' :: 'l' :: r => some (.null, r)
        | _ => none
      else if c = '-' || c.isDigit then
        (parseNumber (c :: rest)).map fun p => (Json.num p.1, p.2)
      else none) := rfl

/-- One value-parser step at an opening quote. -/
theorem parseValue_quote (f : Nat) (rest : List Char) :
    parseValue (f + 1) ('"' :: rest) =
      (parseStringBody f [] rest).map fun p => (Json.str p.1, p.2) := rfl

/-- One value-parser step at an opening brace. -/
theorem parseValue_obrace (f : Nat) (rest : List Char) :
    parseValue (f + 1) ('{' :: rest) =
      (match skipWs rest with
       | '}' :: rest2 => some (.obj .nil, rest2)
       | cs2 => (parseObjItems f .nil cs2).map fun p => (Json.obj p.1, p.2)) := rfl

/-- One value-parser step at an opening bracket. -/
theorem parseValue_obrack (f : Nat) (rest : List Char) :
    parseValue (f + 1) ('[' :: rest) =
      (match skipWs rest with
       | ']' :: rest2 => some (.arr .nil, rest2)
       | cs2 => (parseArrItems f cs2).map fun p => (Json.arr p.1, p.2)) := rfl

/-- One array-items step. -/
theorem parseArrItems_succ (f : Nat) (cs : List Char) :
    parseArrItems (f + 1) cs =
      (parseValue f cs).bind fun vr =>
        parseArrAfterValue f vr.1 (skipWs vr.2) := rfl

/-- After an array item, a comma continues. -/
theorem parseArrAfterValue_comma (f : Nat) (v : Json) (r2 : List Char) :
    parseArrAfterValue (f + 1) v (',' :: r2) =
      (parseArrItems f (skipWs r2)).map fun p => (JsonList.cons v p.1, p.2) := rfl

/-- After an array item, a closing bracket ends the array. -/
theorem parseArrAfterValue_rbrack (f : Nat) (v : Json) (r2 : List Char) :
    parseArrAfterValue (f + 1) v (']' :: r2) = some (.cons v .nil, r2) := rfl

/-- One object-items step at an opening quote. -/
theorem parseObjItems_quote (f : Nat) (acc : JsonObj) (rest : List Char) :
    parseObjItems (f + 1) acc ('"' :: rest) =
      (parseStringBody f [] rest).bind fun kr =>
        parseObjColon f acc kr.1 (skipWs kr.2) := rfl

/-- After an object key, a colon introduces the value. -/
theorem parseObjColon_colon (f : Nat) (acc : JsonObj) (k : String) (r2 : List Char) :
    parseObjColon (f + 1) acc k (':' :: r2) =
      (parseValue f (skipWs r2)).bind fun vr =>
        parseObjAfterValue f (acc.setItem k vr.1) (skipWs vr.2) := rfl

/-- After an object entry, a comma continues. -/
theorem parseObjAfterValue_comma (f : Nat) (acc : JsonObj) (r4 : List Char) :
    parseObjAfterValue (f + 1) acc (',' :: r4) =
      parseObjItems f acc (skipWs r4) := rfl

/-- After an object entry, a closing brace ends the object. -/
theorem parseObjAfterValue_rbrace (f : Nat) (acc : JsonObj) (r4 : List Char) :
    parseObjAfterValue (f + 1) acc ('}' :: r4) = some (acc, r4) := rfl

/-- The rendering of an integer is nonempty, and its head is a minus sign or
a digit. -/
theorem intToChars_head (n : Int) :
    ∃ c t, intToChars n = c :: t ∧ (c = '-' ∨ c.isDigit = true) := by
  unfold intToChars
  by_cases hneg : n < 0
  · rw [if_pos hneg]
    exact ⟨'-', _, rfl, Or.inl rfl⟩
  · rw [if_neg hneg]
    obtain ⟨c, t, he⟩ : ∃ c t, natToChars n.toNat = c :: t := by
      cases hne : natToChars n.toNat with
      | nil => exact absurd hne (natToCharsF_ne_nil (n.toNat + 1) n.toNat (by omega))
      | cons x xs => exact ⟨x, xs, rfl⟩
    refine ⟨c, t, he, Or.inr ?_⟩
    exact natToCharsF_all_digits (n.toNat + 1) n.toNat (by omega) c (by
      show c ∈ natToChars n.toNat
      simp [he])

/-- A numeral head is none of the characters that select another branch of
the value parser. -/
theorem num_head_ne {c : Char} (hc : c = '-' ∨ c.isDigit = true) :
    c ≠ '"' ∧ c ≠ '{' ∧ c ≠ '[' ∧ c ≠ 't' ∧ c ≠ 'f' ∧ c ≠ 'n' := by
  rcases hc with rfl | hd
  · exact ⟨by decide, by decide, by decide, by decide, by decide, by decide⟩
  · rw [isDigit_iff_toNat] at hd
    refine ⟨?_, ?_, ?_, ?_, ?_, ?_⟩ <;> (intro h; subst h; revert hd; decide)

/-- A serialized value starts with a character that is not whitespace and
not a container closer or separator. -/
theorem dumpsVal_head_props (lvl : Nat) (v : Json) :
    ∃ c t, dumpsVal lvl v = c :: t ∧ isWsChar c = false ∧
      c ≠ ']' ∧ c ≠ '}' ∧ c ≠ ',' := by
  cases v with
  | null =>
      refine ⟨'n', _, rfl, ?_, ?_, ?_, ?_⟩ <;> decide
  | bool b =>
      cases b
      · refine ⟨'f', _, rfl, ?_, ?_, ?_, ?_⟩ <;> decide
      · refine ⟨'t', _, rfl, ?_, ?_, ?_, ?_⟩ <;> decide
  | num n =>
      obtain ⟨c, t, he, hc⟩ := intToChars_head n
      refine ⟨c, t, he, ?_, ?_, ?_, ?_⟩ <;> rcases hc with rfl | hd
      · decide
      · rw [isDigit_iff_toNat] at hd
        by_cases hws : isWsChar c = true
        · rw [isWsChar_iff_toNat] at hws
          omega
        · simpa using hws
      · decide
      · rw [isDigit_iff_toNat] at hd
        intro h; subst h; revert hd; decide
      · decide
      · rw [isDigit_iff_toNat] at hd
        intro h; subst h; revert hd; decide
      · decide
      · rw [isDigit_iff_toNat] at hd
        intro h; subst h; revert hd; decide
  | str s =>
      refine ⟨'"', _, rfl, ?_, ?_, ?_, ?_⟩ <;> decide
  | arr xs =>
      cases xs <;> (refine ⟨'[', _, rfl, ?_, ?_, ?_, ?_⟩ <;> decide)
  | obj kvs =>
      cases kvs <;> (refine ⟨'{', _, rfl, ?_, ?_, ?_, ?_⟩ <;> decide)

/-- What follows a value inside a serialized array is a legal numeral
follower: a comma or the newline of the closing indentation. -/
theorem numFollowerOk_arrRest (lvl ind : Nat) (xs : JsonList) (rest : List Char) :
    numFollowerOk (dumpsArrRest lvl xs ++ (nlIndent ind ++ ']' :: rest)) := by
  cases xs with
  | nil => exact ⟨by decide, by decide, by decide, by decide⟩
  | cons y ys => exact ⟨by decide, by decide, by decide, by decide⟩

/-- What follows a value inside a serialized object is a legal numeral
follower: a comma or the newline of the closing indentation. -/
theorem numFollowerOk_objRest (lvl ind : Nat) (kvs : JsonObj) (rest : List Char) :
    numFollowerOk (dumpsObjRest lvl kvs ++ (nlIndent ind ++ '}' :: rest)) := by
  cases kvs with
  | nil => exact ⟨by decide, by decide, by decide, by decide⟩
  | cons k v kvs => exact ⟨by decide, by decide, by decide, by decide⟩

end RoundTripSteps

section RoundTripMain

/-- A negated Bool equation, read off. -/
theorem bnot_true {b : Bool} (h : (!b) = true) : b = false := by
  cases b
  · rfl
  · cases h

/-- Key absence distributes over a cons. -/
theorem hasKey_cons_false {k2 k : String} {v2 : Json} {kvs2 : JsonObj}
    (h : (JsonObj.cons k2 v2 kvs2).hasKey k = false) :
    k2 ≠ k ∧ kvs2.hasKey k = false := by
  constructor
  · intro he
    rw [show (JsonObj.cons k2 v2 kvs2).hasKey k = true from
      JsonObj.hasKey_cons_iff.mpr (Or.inl he)] at h
    cases h
  · cases h2 : kvs2.hasKey k
    · rfl
    · rw [show (JsonObj.cons k2 v2 kvs2).hasKey k = true from
        JsonObj.hasKey_cons_iff.mpr (Or.inr h2)] at h
      cases h

/-- Key absence is preserved by concatenation. -/
theorem hasKey_append_false {a b : JsonObj} {key : String}
    (ha : a.hasKey key = false) (hb : b.hasKey key = false) :
    (a.append b).hasKey key = false := by
  cases h2 : (a.append b).hasKey key
  · rfl
  · rcases (JsonObj.hasKey_append_iff a b).mp h2 with h3 | h3
    · rw [h3] at ha; cases ha
    · rw [h3] at hb; cases hb

/-- A singleton dict lacks every other key. -/
theorem hasKey_single_false {k key : String} {v : Json} (h : k ≠ key) :
    (JsonObj.cons k v .nil).hasKey key = false := by
  cases h2 : (JsonObj.cons k v .nil).hasKey key
  · rfl
  · rcases JsonObj.hasKey_cons_iff.mp h2 with h3 | h3
    · exact absurd h3 h
    · rw [show JsonObj.hasKey .nil key = false from rfl] at h3
      cases h3

set_option maxHeartbeats 1000000 in
mutual

/-- The scanner reads a serialized well-formed value back as that value,
consuming exactly its rendering, whenever the fuel exceeds the input length
and the tail cannot extend a numeral. -/
theorem parseValue_dumps (v : Json) (lvl : Nat) (rest : List Char) (fuel : Nat)
    (hwf : Json.wfB v = true)
    (hfuel : (dumpsVal lvl v).length + rest.length < fuel)
    (hrest : numFollowerOk rest) :
    parseValue fuel (dumpsVal lvl v ++ rest) = some (v, rest) := by
  obtain ⟨f, rfl⟩ : ∃ m, fuel = m + 1 := ⟨fuel - 1, by omega⟩
  cases v with
  | null => exact rfl
  | bool b =>
      cases b with
      | true => exact rfl
      | false => exact rfl
  | num n =>
      obtain ⟨c, t, he, hc⟩ := intToChars_head n
      obtain ⟨h1, h2, h3, h4, h5, h6⟩ := num_head_ne hc
      have hcond : (decide (c = '-') || c.isDigit) = true := by
        rcases hc with rfl | hd
        · simp
        · rw [hd, Bool.or_true]
      rw [show dumpsVal lvl (.num n) = intToChars n from rfl, he, List.cons_append,
        parseValue_cons, if_neg h1, if_neg h2, if_neg h3, if_neg h4, if_neg h5, if_neg h6,
        if_pos hcond, ← List.cons_append, ← he, parseNumber_intToChars n rest hrest]
      rfl
  | str s =>
      have hl : (s.data.flatMap escapeChar).length < f := by
        have h2 : (dumpsVal lvl (.str s)).length =
            (s.data.flatMap escapeChar).length + 2 := by
          show (escapeString s).length = _
          simp [escapeString]
        omega
      rw [show dumpsVal lvl (.str s) = escapeString s from rfl, escapeString_cons,
        parseValue_quote, parseStringBody_escape s.data [] rest f hl]
      simp [stringMk_data]
  | arr xs =>
      cases xs with
      | nil => exact rfl
      | cons x xs =>
          have ewf : Json.wfB (.arr (.cons x xs)) = (Json.wfB x && JsonList.wfB xs) := rfl
          rw [ewf, Bool.and_eq_true] at hwf
          obtain ⟨hwx, hwxs⟩ := hwf
          have e : dumpsVal lvl (.arr (.cons x xs)) =
              '[' :: nlIndent (2 * (lvl + 1)) ++ dumpsVal (lvl + 1) x ++
              dumpsArrRest (lvl + 1) xs ++ nlIndent (2 * lvl) ++ [']'] := rfl
          have hd : dumpsVal lvl (.arr (.cons x xs)) ++ rest =
              '[' :: (nlIndent (2 * (lvl + 1)) ++ (dumpsVal (lvl + 1) x ++
                (dumpsArrRest (lvl + 1) xs ++ (nlIndent (2 * lvl) ++ ']' :: rest)))) := by
            rw [e]
            simp [List.cons_append, List.append_assoc]
          have hlen2 : (dumpsVal (lvl + 1) x ++ (dumpsArrRest (lvl + 1) xs ++
              (nlIndent (2 * lvl) ++ ']' :: rest))).length + 1 < f := by
            rw [e] at hfuel
            simp only [List.length_append, List.length_cons, nlIndent,
              List.length_replicate] at hfuel ⊢
            omega
          rw [hd, parseValue_obrack, skipWs_nlIndent, skipWs_dumpsVal]
          obtain ⟨c, t, hch, hws, hbr, hbc, hcm⟩ := dumpsVal_head_props (lvl + 1) x
          rw [hch, List.cons_append]
          split
          · rename_i rest2 heq
            injection heq with hc1 hc2
            exact absurd hc1 hbr
          · rw [← List.cons_append, ← hch,
              parseArrItems_dumps x xs (lvl + 1) (2 * lvl) rest f hwx hwxs hlen2]
            rfl
  | obj kvs =>
      cases kvs with
      | nil => exact rfl
      | cons k v kvs =>
          have ewf : Json.wfB (.obj (.cons k v kvs)) =
              (!(JsonObj.hasKey kvs k) && Json.wfB v && JsonObj.wfB kvs) := rfl
          rw [ewf, Bool.and_eq_true, Bool.and_eq_true] at hwf
          obtain ⟨⟨hnk, hwv⟩, hwkvs⟩ := hwf
          have hk : kvs.hasKey k = false := bnot_true hnk
          have e : dumpsVal lvl (.obj (.cons k v kvs)) =
              '{' :: nlIndent (2 * (lvl + 1)) ++ escapeString k ++ ':' :: ' ' ::
              dumpsVal (lvl + 1) v ++ dumpsObjRest (lvl + 1) kvs ++
              nlIndent (2 * lvl) ++ ['}'] := rfl
          have hd : dumpsVal lvl (.obj (.cons k v kvs)) ++ rest =
              '{' :: (nlIndent (2 * (lvl + 1)) ++ (escapeString k ++ ':' :: ' ' ::
                (dumpsVal (lvl + 1) v ++ (dumpsObjRest (lvl + 1) kvs ++
                (nlIndent (2 * lvl) ++ '}' :: rest))))) := by
            rw [e]
            simp [List.cons_append, List.append_assoc]
          have hlen3 : (escapeString k ++ ':' :: ' ' :: (dumpsVal (lvl + 1) v ++
              (dumpsObjRest (lvl + 1) kvs ++
              (nlIndent (2 * lvl) ++ '}' :: rest)))).length + 1 < f := by
            rw [e] at hfuel
            simp only [List.length_append, List.length_cons, nlIndent,
              List.length_replicate] at hfuel ⊢
            omega
          rw [hd, parseValue_obrace, skipWs_nlIndent, skipWs_escapeString, escapeString_cons]
          split
          · rename_i rest2 heq
            injection heq with hc1 hc2
            exact absurd hc1 (by decide)
          · rw [← escapeString_cons,
              parseObjItems_dumps k v kvs .nil (lvl + 1) (2 * lvl) rest f hwv hwkvs hk rfl
                (fun key h2 => rfl) hlen3]
            rfl
termination_by sizeOf v

/-- The array-items reader reads back one serialized item and the serialized
remainder of the array, up to the closing bracket. -/
theorem parseArrItems_dumps (x : Json) (xs : JsonList) (lvl ind : Nat)
    (rest : List Char) (fuel : Nat)
    (hwx : Json.wfB x = true) (hwxs : JsonList.wfB xs = true)
    (hfuel : (dumpsVal lvl x ++ (dumpsArrRest lvl xs ++
      (nlIndent ind ++ ']' :: rest))).length + 1 < fuel) :
    parseArrItems fuel (dumpsVal lvl x ++ (dumpsArrRest lvl xs ++
      (nlIndent ind ++ ']' :: rest))) = some (.cons x xs, rest) := by
  obtain ⟨f, rfl⟩ : ∃ m, fuel = m + 1 := ⟨fuel - 1, by omega⟩
  have hl1 : (dumpsVal lvl x).length + (dumpsArrRest lvl xs ++
      (nlIndent ind ++ ']' :: rest)).length < f := by
    simp only [List.length_append, List.length_cons] at hfuel ⊢
    omega
  rw [parseArrItems_succ,
    parseValue_dumps x lvl (dumpsArrRest lvl xs ++ (nlIndent ind ++ ']' :: rest)) f hwx hl1
      (numFollowerOk_arrRest lvl ind xs rest)]
  dsimp only [Option.bind]
  cases xs with
  | nil =>
      rw [show dumpsArrRest lvl .nil = ([] : List Char) from rfl, List.nil_append,
        skipWs_nlIndent, skipWs_cons_of_not_ws (by decide)]
      obtain ⟨f2, rfl⟩ : ∃ m, f = m + 1 :=
        ⟨f - 1, by simp only [List.length_append, List.length_cons] at hfuel; omega⟩
      rw [parseArrAfterValue_rbrack]
  | cons y ys =>
      have ewf : JsonList.wfB (.cons y ys) = (Json.wfB y && JsonList.wfB ys) := rfl
      rw [ewf, Bool.and_eq_true] at hwxs
      obtain ⟨hwy, hwys⟩ := hwxs
      have e : dumpsArrRest lvl (.cons y ys) =
          ',' :: nlIndent (2 * lvl) ++ dumpsVal lvl y ++ dumpsArrRest lvl ys := rfl
      have hd : dumpsArrRest lvl (.cons y ys) ++ (nlIndent ind ++ ']' :: rest) =
          ',' :: (nlIndent (2 * lvl) ++ (dumpsVal lvl y ++ (dumpsArrRest lvl ys ++
            (nlIndent ind ++ ']' :: rest)))) := by
        rw [e]
        simp [List.cons_append, List.append_assoc]
      rw [hd] at hfuel ⊢
      rw [skipWs_cons_of_not_ws (by decide)]
      obtain ⟨f2, rfl⟩ : ∃ m, f = m + 1 :=
        ⟨f - 1, by
          simp only [List.length_append, List.length_cons, nlIndent,
            List.length_replicate] at hfuel
          omega⟩
      have hlen : (dumpsVal lvl y ++ (dumpsArrRest lvl ys ++
          (nlIndent ind ++ ']' :: rest))).length + 1 < f2 := by
        simp only [List.length_append, List.length_cons, nlIndent,
          List.length_replicate] at hfuel ⊢
        omega
      rw [parseArrAfterValue_comma, skipWs_nlIndent, skipWs_dumpsVal,
        parseArrItems_dumps y ys lvl ind rest f2 hwy hwys hlen]
      rfl
termination_by sizeOf x + sizeOf xs + 1

/-- The object-entries reader reads back one serialized entry and the
serialized remainder of the object, appending the entries in order onto the
already-accumulated dict, provided no key repeats. -/
theorem parseObjItems_dumps (k : String) (v : Json) (kvs : JsonObj) (acc : JsonObj)
    (lvl ind : Nat) (rest : List Char) (fuel : Nat)
    (hwv : Json.wfB v = true) (hwkvs : JsonObj.wfB kvs = true)
    (hk : kvs.hasKey k = false) (hacck : acc.hasKey k = false)
    (haccall : ∀ key, kvs.hasKey key = true → acc.hasKey key = false)
    (hfuel : (escapeString k ++ ':' :: ' ' :: (dumpsVal lvl v ++ (dumpsObjRest lvl kvs ++
      (nlIndent ind ++ '}' :: rest)))).length + 1 < fuel) :
    parseObjItems fuel acc (escapeString k ++ ':' :: ' ' :: (dumpsVal lvl v ++
      (dumpsObjRest lvl kvs ++ (nlIndent ind ++ '}' :: rest)))) =
      some (acc.append (.cons k v kvs), rest) := by
  obtain ⟨f, rfl⟩ : ∃ m, fuel = m + 1 := ⟨fuel - 1, by omega⟩
  have hesc : (escapeString k).length = (k.data.flatMap escapeChar).length + 2 := by
    simp [escapeString]
  have hlf : (k.data.flatMap escapeChar).length < f := by
    simp only [List.length_append, List.length_cons, hesc] at hfuel
    omega
  rw [escapeString_cons, parseObjItems_quote,
    parseStringBody_escape k.data []
      (':' :: ' ' :: (dumpsVal lvl v ++ (dumpsObjRest lvl kvs ++
        (nlIndent ind ++ '}' :: rest)))) f hlf]
  dsimp only [Option.bind]
  simp only [List.reverse_nil, List.nil_append]
  rw [stringMk_data, skipWs_cons_of_not_ws (by decide)]
  obtain ⟨f2, rfl⟩ : ∃ m, f = m + 1 :=
    ⟨f - 1, by simp only [List.length_append, List.length_cons, hesc] at hfuel; omega⟩
  have hl2 : (dumpsVal lvl v).length + (dumpsObjRest lvl kvs ++
      (nlIndent ind ++ '}' :: rest)).length < f2 := by
    simp only [List.length_append, List.length_cons, hesc] at hfuel ⊢
    omega
  rw [parseObjColon_colon, skipWs_space, skipWs_dumpsVal,
    parseValue_dumps v lvl (dumpsObjRest lvl kvs ++ (nlIndent ind ++ '}' :: rest)) f2 hwv hl2
      (numFollowerOk_objRest lvl ind kvs rest)]
  dsimp only [Option.bind]
  rw [JsonObj.setItem_eq_append hacck]
  cases kvs with
  | nil =>
      rw [show dumpsObjRest lvl .nil = ([] : List Char) from rfl, List.nil_append,
        skipWs_nlIndent, skipWs_cons_of_not_ws (by decide)]
      obtain ⟨f3, rfl⟩ : ∃ m, f2 = m + 1 :=
        ⟨f2 - 1, by simp only [List.length_append, List.length_cons, hesc] at hfuel; omega⟩
      rw [parseObjAfterValue_rbrace]
  | cons k2 v2 kvs2 =>
      have ewf : JsonObj.wfB (.cons k2 v2 kvs2) =
          (!(JsonObj.hasKey kvs2 k2) && Json.wfB v2 && JsonObj.wfB kvs2) := rfl
      rw [ewf, Bool.and_eq_true, Bool.and_eq_true] at hwkvs
      obtain ⟨⟨hnk2, hwv2⟩, hwkvs2⟩ := hwkvs
      have hk2 : kvs2.hasKey k2 = false := bnot_true hnk2
      obtain ⟨hkne, hk2k⟩ := hasKey_cons_false hk
      have e : dumpsObjRest lvl (.cons k2 v2 kvs2) =
          ',' :: nlIndent (2 * lvl) ++ escapeString k2 ++ ':' :: ' ' ::
          dumpsVal lvl v2 ++ dumpsObjRest lvl kvs2 := rfl
      have hd : dumpsObjRest lvl (.cons k2 v2 kvs2) ++ (nlIndent ind ++ '}' :: rest) =
          ',' :: (nlIndent (2 * lvl) ++ (escapeString k2 ++ ':' :: ' ' ::
            (dumpsVal lvl v2 ++ (dumpsObjRest lvl kvs2 ++
            (nlIndent ind ++ '}' :: rest))))) := by
        rw [e]
        simp [List.cons_append, List.append_assoc]
      rw [hd] at hfuel ⊢
      rw [skipWs_cons_of_not_ws (by decide)]
      obtain ⟨f3, rfl⟩ : ∃ m, f2 = m + 1 :=
        ⟨f2 - 1, by
          simp only [List.length_append, List.length_cons, hesc, nlIndent,
            List.length_replicate] at hfuel
          omega⟩
      have hacc2 : (acc.append (.cons k v .nil)).hasKey k2 = false :=
        hasKey_append_false (haccall k2 (JsonObj.hasKey_cons_iff.mpr (Or.inl rfl)))
          (hasKey_single_false (Ne.symm hkne))
      have hall2 : ∀ key, kvs2.hasKey key = true →
          (acc.append (.cons k v .nil)).hasKey key = false := by
        intro key hkey
        refine hasKey_append_false
          (haccall key (JsonObj.hasKey_cons_iff.mpr (Or.inr hkey)))
          (hasKey_single_false ?_)
        intro he
        rw [← he] at hkey
        rw [hkey] at hk2k
        cases hk2k
      have hlen3 : (escapeString k2 ++ ':' :: ' ' :: (dumpsVal lvl v2 ++
          (dumpsObjRest lvl kvs2 ++ (nlIndent ind ++ '}' :: rest)))).length + 1 < f3 := by
        simp only [List.length_append, List.length_cons, hesc, nlIndent,
          List.length_replicate] at hfuel ⊢
        omega
      rw [parseObjAfterValue_comma, skipWs_nlIndent, skipWs_escapeString,
        parseObjItems_dumps k2 v2 kvs2 (acc.append (.cons k v .nil)) lvl ind rest f3
          hwv2 hwkvs2 hk2 hacc2 hall2 hlen3, JsonObj.append_cons]
termination_by sizeOf v + sizeOf kvs + 1

end

end RoundTripMain

section RoundTripClaim

/-- rfind locates a final occurrence at the last index. -/
theorem pyRfindAux_append_last (c : Char) : ∀ (xs : List Char),
    pyRfindAux c (xs ++ [c]) = some xs.length
  | [] => by simp [pyRfindAux]
  | x :: xs => by
      simp [pyRfindAux, pyRfindAux_append_last c xs]

/-- A serialized dict is one opening brace, a middle, and one final closing
brace. -/
theorem dumpsObj_shape (kvs : JsonObj) :
    ∃ mid, dumpsVal 0 (.obj kvs) = '{' :: mid ++ ['}'] := by
  cases kvs with
  | nil => exact ⟨[], rfl⟩
  | cons k v kvs =>
      refine ⟨nlIndent (2 * (0 + 1)) ++ (escapeString k ++ (':' :: ' ' ::
        (dumpsVal (0 + 1) v ++ (dumpsObjRest (0 + 1) kvs ++ nlIndent (2 * 0))))), ?_⟩
      rw [show dumpsVal 0 (.obj (.cons k v kvs)) =
          '{' :: nlIndent (2 * (0 + 1)) ++ escapeString k ++ ':' :: ' ' ::
          dumpsVal (0 + 1) v ++ dumpsObjRest (0 + 1) kvs ++
          nlIndent (2 * 0) ++ ['}'] from rfl]
      simp [List.cons_append, List.append_assoc]

/-- The brace slice of a serialized dict is the whole text: the first opening
brace is its head and the last closing brace is its final character. -/
theorem candidateChars_dumps_obj (kvs : JsonObj) :
    candidateChars (jsonDumps (.obj kvs)) = dumpsVal 0 (.obj kvs) := by
  obtain ⟨mid, hm⟩ := dumpsObj_shape kvs
  unfold candidateChars
  rw [show (jsonDumps (.obj kvs)).data = dumpsVal 0 (.obj kvs) from rfl, hm]
  rw [show pyFind ('{' :: mid ++ ['}']) '{' = ((0 : Nat) : Int) from by
    simp [pyFind, pyFindAux]]
  rw [show pyRfind ('{' :: mid ++ ['}']) '}' + 1 = ((mid.length + 2 : Nat) : Int) from by
    simp only [pyRfind, pyRfindAux_append_last '}' ('{' :: mid), List.length_cons]
    push_cast
    ring]
  rw [pySlice_nat]
  rw [List.drop_zero, List.take_of_length_le (by simp)]

/-- C5: Extraction undoes serialization. For every well-formed StageResult
dict (every dict a Python run can hold: distinct keys at every level),
serializing it with json.dumps(..., indent=2) and feeding the text to
_parse_json_response returns the very same dict: the first opening and last
closing brace of the serialization delimit the whole text, and the parse
reads every entry back in order. -/
theorem extract_serialize_roundtrip (kvs : JsonObj)
    (hwf : Json.wfB (.obj kvs) = true) :
    parseJsonResponse (jsonDumps (.obj kvs)) = .obj kvs := by
  have hload : jsonLoads (String.mk (dumpsVal 0 (.obj kvs))) = some (.obj kvs) := by
    unfold jsonLoads
    rw [show (String.mk (dumpsVal 0 (.obj kvs))).data = dumpsVal 0 (.obj kvs) from rfl]
    have hs : skipWs (dumpsVal 0 (.obj kvs)) = dumpsVal 0 (.obj kvs) ++ [] := by
      rw [List.append_nil]
      obtain ⟨c, t, hch, hws, h1, h2, h3⟩ := dumpsVal_head_props 0 (.obj kvs)
      rw [hch, skipWs_cons_of_not_ws hws]
    rw [hs, parseValue_dumps (.obj kvs) 0 []
      ((dumpsVal 0 (.obj kvs)).length + 1) hwf (by simp) trivial]
    rfl
  unfold parseJsonResponse
  rw [candidateChars_dumps_obj kvs, hload]

/-- The round trip, checked on a concrete two-field StageResult. -/
theorem extract_serialize_roundtrip_witness :
    Json.wfB (.obj (.cons "completeness_score" (.num 85)
      (.cons "status" (.str "Complete") .nil))) = true ∧
    parseJsonResponse (jsonDumps (.obj (.cons "completeness_score" (.num 85)
      (.cons "status" (.str "Complete") .nil)))) =
      .obj (.cons "completeness_score" (.num 85)
        (.cons "status" (.str "Complete") .nil)) :=
  ⟨by decide, extract_serialize_roundtrip _ (by decide)⟩

end RoundTripClaim
